import Mathlib

/-!
# The YT node.js proxy: stream piping, command execution and external services

A shallow embedding of `yt/nodejs/lib/driver.js` and
`yt/nodejs/lib/external_services.js`.

* `promisinglyPipe` is embedded as a state machine over the listeners it
  registers on its two streams.  An event of a stream is dispatched the way
  an `EventEmitter` does it: the listeners registered for that event at the
  moment of the `emit` are called in registration order.
* `YtDriver.prototype.execute` is embedded as a state machine over the two
  pipes, the shared deferred and the two `Q.when` promises.  The callbacks
  given to `Q.when` run in turns of their own, after the pipe has settled.
* The retrying callers `blackboxValidateToken` and `oAuthObtainToken` are
  embedded as total recursive functions over an oracle for the remote
  service.
* `oAuthBuildUrlToRedirect` is embedded together with the functions of node.js
  it calls: `JSON.stringify`, `querystring.stringify` and `url.format`.
-/

namespace YtDriver

/-! ## Values and promises -/

/-- JavaScript values that flow through the driver: chunks of data, errors
(`new YtError(message, inner)`, `inner` being `undefined` when absent) and the
result object the engine hands to the on-execute callback. -/
inductive Value
  | undefined
  | chunk (bytes : List Nat)
  | error (message : String) (inner : Value)
  | result (code : Int) (message : String)
  deriving DecidableEq, Repr

/-- The state of a `Q` promise. -/
inductive Promise (α : Type)
  | pending
  | fulfilled (value : α)
  | rejected (reason : Value)
  deriving DecidableEq, Repr

/-- The call `deferred.resolve(value)`: settles a pending promise, otherwise nothing. -/
def Promise.resolve {α : Type} (p : Promise α) (value : α) : Promise α :=
  match p with
  | .pending => .fulfilled value
  | _ => p

/-- The call `deferred.reject(reason)`: settles a pending promise, otherwise nothing. -/
def Promise.reject {α : Type} (p : Promise α) (reason : Value) : Promise α :=
  match p with
  | .pending => .rejected reason
  | _ => p

/-- A promise that is no longer pending. -/
def Promise.settled {α : Type} (p : Promise α) : Bool :=
  match p with
  | .pending => false
  | _ => true

/-- A promise that has been rejected. -/
def Promise.isRejected {α : Type} (p : Promise α) : Bool :=
  match p with
  | .rejected _ => true
  | _ => false

/-! ## Streams -/

/-- The two ends of a pipe. -/
inductive Side
  | source
  | destination
  deriving DecidableEq, Repr

/-- The stream events `promisinglyPipe` subscribes to. -/
inductive EventName
  | data
  | drain
  | end_
  | close
  | error
  deriving DecidableEq, Repr

/-- The functions `promisinglyPipe` registers as listeners. -/
inductive Handler
  | on_data
  | on_drain
  | on_end
  | on_source_close
  | on_destination_close
  | on_error
  | cleanup
  deriving DecidableEq, Repr

/-- One subscription: `emitter.on(event, handler)`. -/
structure Listener where
  emitter : Side
  event : EventName
  handler : Handler
  deriving DecidableEq, Repr

/-- A method the driver calls on a stream. -/
inductive Call
  | write (chunk : Value)
  | pause
  | resume
  | end_
  | destroy
  | endSoon
  | emit_pipe
  deriving DecidableEq, Repr

/-- An event emitted by one of the two streams of a pipe, together with what
the handlers observe on the streams while they run: `destination.writable`,
the value `destination.write(chunk)` returns if it is called (`false` means
the destination is full), and `source.readable`. -/
structure Emit where
  emitter : Side
  event : EventName
  arg : Value
  writable : Bool
  write_result : Bool
  readable : Bool
  deriving DecidableEq, Repr

/-! ## promisinglyPipe -/

/-- The state of one pipe: its current subscriptions, in registration order,
and its deferred. -/
structure Pipe where
  listeners : List Listener
  deferred : Promise Unit
  deriving DecidableEq, Repr

/-- The call `emitter.removeListener(event, handler)`: removes the most recently added
matching subscription, if there is one.  No handler is subscribed twice to the
same event of the same stream, so which of several is removed plays no role. -/
def removeListener (ls : List Listener) (l : Listener) : List Listener :=
  (ls.reverse.erase l).reverse

/-- The subscriptions `cleanup` removes, in the order of its body. -/
def cleanupRemovals : List Listener :=
  [ ⟨.source, .data, .on_data⟩,
    ⟨.destination, .drain, .on_drain⟩,
    ⟨.source, .end_, .on_end⟩,
    ⟨.source, .close, .on_source_close⟩,
    ⟨.source, .error, .on_error⟩,
    ⟨.destination, .close, .on_destination_close⟩,
    ⟨.destination, .error, .on_error⟩,
    ⟨.source, .end_, .cleanup⟩,
    ⟨.source, .close, .cleanup⟩,
    ⟨.destination, .end_, .cleanup⟩,
    ⟨.destination, .close, .cleanup⟩ ]

/-- The function `cleanup` of `promisinglyPipe`. -/
def cleanup (p : Pipe) : Pipe :=
  { p with listeners := cleanupRemovals.foldl removeListener p.listeners }

/-- The body of each listener, run for the event `e`: the new state of the
pipe and the calls made on the streams. -/
def runHandler (h : Handler) (e : Emit) (p : Pipe) : Pipe × List (Side × Call) :=
  match h with
  | .on_data =>
    if e.writable then
      if e.write_result = false then
        (p, [(.destination, .write e.arg), (.source, .pause)])
      else
        (p, [(.destination, .write e.arg)])
    else
      (p, [])
  | .on_drain =>
    if e.readable then (p, [(.source, .resume)]) else (p, [])
  | .on_end =>
    ({ p with deferred := p.deferred.resolve () }, [])
  | .on_source_close =>
    let err := Value.error "Source stream in the pipe has been closed." .undefined
    ({ p with deferred := p.deferred.reject err }, [])
  | .on_destination_close =>
    let err := Value.error "Destination stream in the pipe has been closed." .undefined
    ({ p with deferred := p.deferred.reject err }, [])
  | .on_error =>
    let q := cleanup p
    ({ q with deferred := q.deferred.reject e.arg }, [])
  | .cleanup => (cleanup p, [])

/-- Runs the given handlers one after the other. -/
def runHandlers (hs : List Handler) (e : Emit) (p : Pipe) : Pipe × List (Side × Call) :=
  match hs with
  | [] => (p, [])
  | h :: rest =>
    let r := runHandler h e p
    let r2 := runHandlers rest e r.1
    (r2.1, r.2 ++ r2.2)

/-- The handlers subscribed to the event `e` in the state `p`. -/
def subscribed (p : Pipe) (e : Emit) : List Handler :=
  (p.listeners.filter (fun l => l.emitter = e.emitter ∧ l.event = e.event)).map (·.handler)

/-- The call `emitter.emit(event, arg)`: the listeners subscribed at the time of the
call are run in registration order. -/
def emit (p : Pipe) (e : Emit) : Pipe × List (Side × Call) :=
  runHandlers (subscribed p e) e p

/-- The subscriptions `promisinglyPipe` makes, in the order of its body. -/
def registered : List Listener :=
  [ ⟨.source, .data, .on_data⟩,
    ⟨.destination, .drain, .on_drain⟩,
    ⟨.source, .end_, .on_end⟩,
    ⟨.source, .close, .on_source_close⟩,
    ⟨.source, .error, .on_error⟩,
    ⟨.destination, .close, .on_destination_close⟩,
    ⟨.destination, .error, .on_error⟩,
    ⟨.source, .end_, .cleanup⟩,
    ⟨.source, .close, .cleanup⟩,
    ⟨.destination, .end_, .cleanup⟩,
    ⟨.destination, .close, .cleanup⟩ ]

/-- The pipe `promisinglyPipe(source, destination)` returns with: all
listeners registered, the deferred pending. -/
def promisinglyPipe : Pipe :=
  { listeners := registered, deferred := .pending }

/-- The call `promisinglyPipe` makes while it sets the pipe up:
`destination.emit("pipe", source)`. -/
def promisinglyPipe_setup : List (Side × Call) :=
  [(.destination, .emit_pipe)]

/-- The state of a pipe after a sequence of stream events. -/
def Pipe.after (p : Pipe) (es : List Emit) : Pipe :=
  es.foldl (fun q e => (emit q e).1) p

/-- The calls a pipe makes on its streams over a sequence of stream events. -/
def Pipe.calls (p : Pipe) (es : List Emit) : List (Side × Call) :=
  match es with
  | [] => []
  | e :: rest => (emit p e).2 ++ Pipe.calls (emit p e).1 rest

/-- The chunks passed to `destination.write` among a list of calls. -/
def writes (cs : List (Side × Call)) : List Value :=
  cs.filterMap (fun c =>
    match c with
    | (.destination, .write v) => some v
    | _ => none)

/-- An event that makes the pipe remove its listeners: `end`, `close` or
`error` of either stream. -/
def Emit.detaches (e : Emit) : Bool :=
  e.event = .end_ ∨ e.event = .close ∨ e.event = .error

/-- A `data` event of the source. -/
def Emit.isData (e : Emit) : Bool :=
  e.emitter = .source ∧ e.event = .data

/-- The chunks the source emits over a sequence of events. -/
def emitted (es : List Emit) : List Value :=
  (es.filter Emit.isData).map (·.arg)

/-- The chunks the source emits while the pipe is attached (before the first
`end`, `close` or `error` event) and `destination.writable` holds. -/
def emittedWhileWritable (es : List Emit) : List Value :=
  ((es.takeWhile (fun e => !e.detaches)).filter
    (fun e => e.isData && e.writable)).map (·.arg)

/-- The handlers an attached pipe runs for each event, in order. -/
def handlersFor (emitter : Side) (event : EventName) : List Handler :=
  match emitter, event with
  | .source, .data => [.on_data]
  | .source, .end_ => [.on_end, .cleanup]
  | .source, .close => [.on_source_close, .cleanup]
  | .source, .error => [.on_error]
  | .destination, .drain => [.on_drain]
  | .destination, .end_ => [.cleanup]
  | .destination, .close => [.on_destination_close, .cleanup]
  | .destination, .error => [.on_error]
  | _, _ => []

/-! ## YtDriver.prototype.execute -/

/-- The four streams of one `execute` call. -/
inductive StreamId
  | input_stream
  | wrapped_input_stream
  | wrapped_output_stream
  | output_stream
  deriving DecidableEq, Repr

/-- What can happen during one `execute` call:

* an event of a stream of the input pipe (`input_stream` is its source,
  `wrapped_input_stream` its destination);
* an event of a stream of the output pipe (`wrapped_output_stream` is its
  source, `output_stream` its destination);
* a turn in which `Q` runs the callbacks given to `Q.when` for the input pipe,
  or those for the output pipe: `Q` never runs a callback in the turn that
  settles the promise, so stream events and the on-execute callback can fall
  between the settlement of a pipe and its callbacks;
* the engine invoking the on-execute callback with `result` (an object with
  the given `code`) followed by the arguments `rest`. -/
inductive ExecEvent
  | input (e : Emit)
  | output (e : Emit)
  | run_input_callbacks
  | run_output_callbacks
  | engine (code : Int) (message : String) (rest : List Value)
  deriving DecidableEq, Repr

/-- The state of one `execute` call: the two pipes, the shared `deferred`,
the two promises made by `Q.when`, and the calls made on the streams so
far. -/
structure Exec where
  input_pipe : Pipe
  output_pipe : Pipe
  deferred : Promise (List Value)
  input_pipe_promise : Promise Unit
  output_pipe_promise : Promise Unit
  calls : List (StreamId × Call)
  deriving DecidableEq, Repr

/-- The calls of a pipe, on the streams it was given. -/
def onStreams (source destination : StreamId) (cs : List (Side × Call)) :
    List (StreamId × Call) :=
  cs.map (fun c =>
    match c with
    | (.source, call) => (source, call)
    | (.destination, call) => (destination, call))

/-- The callbacks given to `Q.when` for the input pipe.  One of them runs,
once, after the pipe has settled; both return `undefined`, which fulfils
`input_pipe_promise`.  While the pipe is pending there is nothing to run. -/
def input_pipe_callbacks (s : Exec) : Exec :=
  match s.input_pipe_promise, s.input_pipe.deferred with
  | .pending, .fulfilled _ =>
    { s with
      calls := s.calls ++ [(.wrapped_input_stream, .end_)]
      input_pipe_promise := .fulfilled () }
  | .pending, .rejected err =>
    { s with
      calls := s.calls ++ [(.input_stream, .destroy), (.wrapped_input_stream, .destroy)]
      deferred := s.deferred.reject (.error "Input pipe has been cancelled" err)
      input_pipe_promise := .fulfilled () }
  | _, _ => s

/-- The callbacks given to `Q.when` for the output pipe. -/
def output_pipe_callbacks (s : Exec) : Exec :=
  match s.output_pipe_promise, s.output_pipe.deferred with
  | .pending, .fulfilled _ =>
    { s with output_pipe_promise := .fulfilled () }
  | .pending, .rejected err =>
    { s with
      calls := s.calls ++ [(.output_stream, .destroy), (.wrapped_output_stream, .destroy)]
      deferred := s.deferred.reject (.error "Output pipe has been cancelled" err)
      output_pipe_promise := .fulfilled () }
  | _, _ => s

/-- The on-execute callback. -/
def on_execute (s : Exec) (code : Int) (message : String) (rest : List Value) : Exec :=
  let s1 : Exec := { s with calls := s.calls ++ [(.wrapped_output_stream, .endSoon)] }
  if code = 0 then
    { s1 with deferred := s1.deferred.resolve (.result code message :: rest) }
  else
    { s1 with
      calls := s1.calls ++ [(.wrapped_input_stream, .destroy), (.wrapped_output_stream, .destroy)]
      deferred := s1.deferred.reject (.result code message) }

/-- One event of an `execute` call.  A stream event is dispatched to the
listeners of its pipe, which settle the deferred of the pipe at once; the
callbacks of `Q.when` run in a turn of their own. -/
def Exec.step (s : Exec) (ev : ExecEvent) : Exec :=
  match ev with
  | .input e =>
    { s with
      input_pipe := (emit s.input_pipe e).1
      calls := s.calls ++ onStreams .input_stream .wrapped_input_stream (emit s.input_pipe e).2 }
  | .output e =>
    { s with
      output_pipe := (emit s.output_pipe e).1
      calls := s.calls ++
        onStreams .wrapped_output_stream .output_stream (emit s.output_pipe e).2 }
  | .run_input_callbacks => input_pipe_callbacks s
  | .run_output_callbacks => output_pipe_callbacks s
  | .engine code message rest => on_execute s code message rest

/-- The state `execute` starts from: both pipes set up, nothing settled. -/
def execute : Exec :=
  { input_pipe := promisinglyPipe
    output_pipe := promisinglyPipe
    deferred := .pending
    input_pipe_promise := .pending
    output_pipe_promise := .pending
    calls := onStreams .input_stream .wrapped_input_stream promisinglyPipe_setup
      ++ onStreams .wrapped_output_stream .output_stream promisinglyPipe_setup }

/-- The state of an `execute` call after a sequence of events. -/
def Exec.after (s : Exec) (evs : List ExecEvent) : Exec :=
  evs.foldl Exec.step s

/-- The promise `execute` returns:
`Q.all([deferred.promise, input_pipe_promise, output_pipe_promise])`, spread
to its first element.  It is rejected as soon as one of the three is, and
fulfilled with the value of `deferred` once all three are fulfilled. -/
def Exec.future (s : Exec) : Promise (List Value) :=
  match s.deferred, s.input_pipe_promise, s.output_pipe_promise with
  | .rejected reason, _, _ => .rejected reason
  | _, .rejected reason, _ => .rejected reason
  | _, _, .rejected reason => .rejected reason
  | .fulfilled value, .fulfilled _, .fulfilled _ => .fulfilled value
  | _, _, _ => .pending

/-- An invocation of the on-execute callback. -/
def ExecEvent.isEngine (ev : ExecEvent) : Bool :=
  match ev with
  | .engine _ _ _ => true
  | _ => false

/-- How many times `call` was made on `stream`. -/
def timesCalled (s : Exec) (stream : StreamId) (call : Call) : Nat :=
  s.calls.count (stream, call)

/-! ## External services -/

/-- The configuration of an external service:
`config.services.blackbox` or `config.services.oauth`. -/
structure ServiceConfig where
  host : String
  port : Nat
  timeout : Nat
  nodelay : Bool
  retries : Nat
  deriving DecidableEq, Repr

/-- A decoded JSON response: an object, as its fields in order. -/
abbrev JsonObject := List (String × String)

/-- An error of a service call: a `YtError` with its message and, when it was
set, `attributes.raw_data`. -/
structure ServiceError where
  message : String
  raw_data : Option JsonObject
  deriving DecidableEq, Repr

/-- What the promise of `fire()` settles with: a rejection (the request
failed, timed out or its body did not decode) or the decoded object. -/
inductive Response
  | failed (err : ServiceError)
  | json (data : JsonObject)
  deriving DecidableEq, Repr

/-- What a retrying call did: how its promise settled, the retry indices of
the requests it fired and the arguments of its calls to `Q.delay`, both in
order. -/
structure Outcome where
  result : Except ServiceError JsonObject
  requests : List Nat
  delays : List Nat

/-- The texts in which the two retrying callers differ: the name of the
field that signals a failure of the service, and the two error messages. -/
structure ServiceText where
  field : String
  too_many : String
  returned : String
  deriving DecidableEq, Repr

/-- The `then` callback of both callers: a response with the failure field
becomes a rejection that carries the response, any other response is the
value. -/
def on_response (text : ServiceText) (data : JsonObject) : Except ServiceError JsonObject :=
  match data.lookup text.field with
  | some reason => .error { message := text.returned ++ reason, raw_data := some data }
  | none => .ok data

/-- The request of one attempt followed by the `then` callback: the
rejection of a failed request passes through, a decoded response goes through
`on_response`. -/
def fire_then (text : ServiceText) (service : Nat → Response) (retry : Nat) :
    Except ServiceError JsonObject :=
  match service retry with
  | .failed err => .error err
  | .json data => on_response text data

/-- The function `inner(retry)` of both callers; `service retry` is how the
request fired at retry index `retry` ends.  The `fail` callback is chained
after the `then` callback, so it receives the rejections of the request and
those made by the `then` callback alike. -/
def inner (text : ServiceText) (config : ServiceConfig) (service : Nat → Response)
    (retry : Nat) : Outcome :=
  if _h : retry ≥ config.retries then
    { result := .error { message := text.too_many, raw_data := none }
      requests := []
      delays := [] }
  else
    match fire_then text service retry with
    | .ok data => { result := .ok data, requests := [retry], delays := [] }
    | .error _ =>
      let next := inner text config service (retry + 1)
      { result := next.result
        requests := retry :: next.requests
        delays := config.timeout * retry :: next.delays }
termination_by config.retries - retry
decreasing_by omega

/-- The texts of `blackboxValidateToken`. -/
def blackboxText : ServiceText :=
  { field := "exception"
    too_many := "Too many failed Blackbox requests"
    returned := "Blackbox returned an exception: " }

/-- The texts of `oAuthObtainToken`. -/
def oAuthText : ServiceText :=
  { field := "error"
    too_many := "Too many failed OAuth requests"
    returned := "OAuth returned an error: " }

/-- The call `blackboxValidateToken(logger, party, token)`. -/
def blackboxValidateToken (config : ServiceConfig) (service : Nat → Response) : Outcome :=
  inner blackboxText config service 0

/-- The call `oAuthObtainToken(logger, client_id, client_secret, code)`. -/
def oAuthObtainToken (config : ServiceConfig) (service : Nat → Response) : Outcome :=
  inner oAuthText config service 0

/-! ## The redirect URL -/

/-- A JSON value, as `JSON.stringify` sees it.  A number is an integer of
magnitude below `2 ^ 53`, given by its sign and its magnitude: these are the
integers a JavaScript number holds exactly, and `JSON.stringify` writes them
in plain decimal digits. -/
inductive Json
  | null
  | bool (b : Bool)
  | number (negative : Bool) (magnitude : Fin 9007199254740992)
  | string (s : String)
  | array (items : List Json)
  | object (fields : List (String × Json))
  deriving Repr

/-- The upper-case hexadecimal digit of a number below 16. -/
def hexDigit (n : Nat) : Char :=
  if n < 10 then Char.ofNat (48 + n) else Char.ofNat (55 + n)

/-- How `JSON.stringify` writes one character of a string: the double quote
(code 34) and the backslash (code 92) get a backslash, the control characters
their short or `\u00XX` form. -/
def jsonEscape (c : Char) : List Char :=
  let backslash := Char.ofNat 92
  if c.toNat = 34 then [backslash, Char.ofNat 34]
  else if c.toNat = 92 then [backslash, backslash]
  else if c.toNat = 10 then [backslash, 'n']
  else if c.toNat = 13 then [backslash, 'r']
  else if c.toNat = 9 then [backslash, 't']
  else if c.toNat = 8 then [backslash, 'b']
  else if c.toNat = 12 then [backslash, 'f']
  else if c.toNat < 32 then
    [backslash, 'u', '0', '0', hexDigit (c.toNat / 16), (hexDigit (c.toNat % 16)).toLower]
  else [c]

/-- How `JSON.stringify` writes a string: between double quotes. -/
def jsonQuote (s : String) : String :=
  String.mk ([Char.ofNat 34] ++ s.toList.flatMap jsonEscape ++ [Char.ofNat 34])

mutual
/-- The text `JSON.stringify(value)` produces. -/
def JSON_stringify : Json → String
  | .null => "null"
  | .bool true => "true"
  | .bool false => "false"
  | .number negative magnitude =>
    if negative ∧ magnitude.val ≠ 0 then "-" ++ toString magnitude.val
    else toString magnitude.val
  | .string s => jsonQuote s
  | .array items => "[" ++ stringifyItems items ++ "]"
  | .object fields => "\x7b" ++ stringifyFields fields ++ "\x7d"
/-- The elements of an array, separated by commas. -/
def stringifyItems : List Json → String
  | [] => ""
  | [x] => JSON_stringify x
  | x :: rest => JSON_stringify x ++ "," ++ stringifyItems rest
/-- The members of an object, separated by commas. -/
def stringifyFields : List (String × Json) → String
  | [] => ""
  | [(k, v)] => jsonQuote k ++ ":" ++ JSON_stringify v
  | (k, v) :: rest => jsonQuote k ++ ":" ++ JSON_stringify v ++ "," ++ stringifyFields rest
end

/-- The bytes of the UTF-8 encoding of a character. -/
def utf8Bytes (c : Char) : List Nat :=
  let n := c.toNat
  if n < 128 then [n]
  else if n < 2048 then [192 + n / 64, 128 + n % 64]
  else if n < 65536 then [224 + n / 4096, 128 + n / 64 % 64, 128 + n % 64]
  else [240 + n / 262144, 128 + n / 4096 % 64, 128 + n / 64 % 64, 128 + n % 64]

/-- The characters `encodeURIComponent` leaves as they are: letters, digits
and the marks `- _ . ! ~ *`, the apostrophe and the two parentheses, given
here by their codes. -/
def unreserved (c : Char) : Bool :=
  c.isAlphanum || [45, 95, 46, 33, 126, 42, 39, 40, 41].contains c.toNat

/-- How `encodeURIComponent` writes one character: itself when unreserved,
otherwise `%XX` for each byte of its UTF-8 encoding. -/
def encodeChar (c : Char) : List Char :=
  if unreserved c then [c]
  else (utf8Bytes c).flatMap (fun b => ['%', hexDigit (b / 16), hexDigit (b % 16)])

/-- The function `encodeURIComponent`, which `querystring.escape` is. -/
def encodeURIComponent (s : String) : String :=
  String.mk (s.toList.flatMap encodeChar)

/-- The function `querystring.stringify(obj)`: `key=value` for each property
in order, both escaped, joined by `&`. -/
def querystring_stringify (obj : List (String × String)) : String :=
  "&".intercalate (obj.map (fun kv => encodeURIComponent kv.1 ++ "=" ++ encodeURIComponent kv.2))

/-- The properties of the object given to `url.format` that the driver
sets. -/
structure UrlObject where
  protocol : String
  host : Option String
  hostname : Option String
  port : Option Nat
  pathname : String
  query : List (String × String)

/-- The function `url.format(urlObj)` of node.js: `host` is used in place of
`hostname` and `port`, which are only looked at when `host` is absent; a
colon is added to a protocol without one, `http` is followed by `//`, and a
slash is put before a path without one. -/
def url_format (o : UrlObject) : String :=
  let host : Option String :=
    match o.host with
    | some h => some h
    | none =>
      match o.hostname with
      | some h =>
        match o.port with
        | some p => some (h ++ ":" ++ toString p)
        | none => some h
      | none => none
  let query := if o.query.isEmpty then "" else "?" ++ querystring_stringify o.query
  let protocol :=
    if o.protocol = "" ∨ o.protocol.toList.getLast? = some ':' then o.protocol
    else o.protocol ++ ":"
  let authority :=
    match host with
    | some h => "//" ++ h
    | none => ""
  let pathname :=
    if host.isSome ∧ o.pathname ≠ "" ∧ o.pathname.toList.head? ≠ some '/' then "/" ++ o.pathname
    else o.pathname
  protocol ++ authority ++ pathname ++ query

/-- The function `oAuthBuildUrlToRedirect(client_id, state)`, with the
configuration it reads from the registry. -/
def oAuthBuildUrlToRedirect (config : ServiceConfig) (client_id : String) (state : Json) :
    String :=
  url_format
    { protocol := "http"
      host := some config.host
      hostname := none
      port := some config.port
      pathname := "/authorize"
      query :=
        [ ("response_type", "code"),
          ("display", "popup"),
          ("client_id", client_id),
          ("state", JSON_stringify state) ] }

/-! ## Theorems: promisinglyPipe -/

theorem removals_registered : cleanupRemovals.foldl removeListener registered = [] := by
  decide

theorem removals_nil : cleanupRemovals.foldl removeListener [] = [] := by
  decide

theorem cleanup_registered (d : Promise Unit) :
    cleanup { listeners := registered, deferred := d } = { listeners := [], deferred := d } := by
  simp [cleanup, removals_registered]

theorem cleanup_detached (d : Promise Unit) :
    cleanup { listeners := [], deferred := d } = { listeners := [], deferred := d } := by
  simp [cleanup, removals_nil]

theorem emit_detached (p : Pipe) (e : Emit) (h : p.listeners = []) : emit p e = (p, []) := by
  simp [emit, subscribed, h, runHandlers]

theorem subscribed_registered (d : Promise Unit) (e : Emit) :
    subscribed { listeners := registered, deferred := d } e = handlersFor e.emitter e.event := by
  obtain ⟨em, ev, arg, w, wr, r⟩ := e
  cases em <;> cases ev <;> simp [subscribed, registered, handlersFor]

/-- What an attached pipe does with an event that does not detach it. -/
theorem emit_attached (e : Emit) (h : e.detaches = false) :
    emit promisinglyPipe e =
      (promisinglyPipe,
        if e.isData && e.writable then
          if e.write_result = false then [(.destination, .write e.arg), (.source, .pause)]
          else [(.destination, .write e.arg)]
        else if e.emitter = .destination ∧ e.event = .drain ∧ e.readable = true then
          [(.source, .resume)]
        else []) := by
  obtain ⟨em, ev, arg, w, wr, r⟩ := e
  cases em <;> cases ev <;> simp [Emit.detaches] at h <;>
    cases w <;> cases wr <;> cases r <;>
    simp [emit, subscribed_registered, handlersFor, promisinglyPipe, runHandlers, runHandler,
      Emit.isData]

/-- What an attached pipe does with an event that detaches it. -/
theorem emit_detaching (e : Emit) (h : e.detaches = true) :
    (emit promisinglyPipe e).1.listeners = [] ∧ (emit promisinglyPipe e).2 = [] := by
  obtain ⟨em, ev, arg, w, wr, r⟩ := e
  cases em <;> cases ev <;> simp [Emit.detaches] at h <;>
    simp [emit, subscribed_registered, handlersFor, promisinglyPipe, runHandlers, runHandler,
      cleanup_registered, cleanup_detached]

theorem after_detached (p : Pipe) (es : List Emit) (h : p.listeners = []) : p.after es = p := by
  induction es with
  | nil => rfl
  | cons e rest ih => simpa [Pipe.after, emit_detached p e h] using ih

theorem calls_detached (p : Pipe) (es : List Emit) (h : p.listeners = []) :
    Pipe.calls p es = [] := by
  induction es with
  | nil => rfl
  | cons e rest ih => simp [Pipe.calls, emit_detached p e h, ih]

theorem after_cons (p : Pipe) (e : Emit) (es : List Emit) :
    p.after (e :: es) = (emit p e).1.after es := rfl

theorem after_append (p : Pipe) (es fs : List Emit) :
    p.after (es ++ fs) = (p.after es).after fs := by
  simp [Pipe.after]

theorem calls_append (p : Pipe) (es fs : List Emit) :
    Pipe.calls p (es ++ fs) = Pipe.calls p es ++ Pipe.calls (p.after es) fs := by
  induction es generalizing p with
  | nil => rfl
  | cons e rest ih => simp [Pipe.calls, after_cons, ih]

/-- A pipe is either as `promisinglyPipe` made it or has no listener left. -/
theorem attached_or_detached (es : List Emit) :
    promisinglyPipe.after es = promisinglyPipe ∨ (promisinglyPipe.after es).listeners = [] := by
  induction es using List.reverseRecOn with
  | nil => exact Or.inl rfl
  | append_singleton es e ih =>
    rw [after_append]
    rcases ih with h | h
    · rw [h]
      cases hd : e.detaches with
      | false => left; simp [Pipe.after, emit_attached e hd]
      | true => right; simpa [Pipe.after] using (emit_detaching e hd).1
    · right
      rw [after_detached _ _ h]
      exact h

theorem settled_detached (es : List Emit)
    (h : (promisinglyPipe.after es).deferred.settled = true) :
    (promisinglyPipe.after es).listeners = [] := by
  rcases attached_or_detached es with h1 | h1
  · rw [h1] at h
    simp [promisinglyPipe, Promise.settled] at h
  · exact h1

theorem writes_append (cs ds : List (Side × Call)) : writes (cs ++ ds) = writes cs ++ writes ds := by
  simp [writes]

/-- C1 as stated fails: a chunk emitted while `destination.writable` is
false is not passed to `destination.write`, although no stream closes or emits
an error. -/
theorem pipe_drops_chunk_when_not_writable :
    (∀ e ∈ [(⟨.source, .data, .chunk [1], false, true, true⟩ : Emit)],
        e.event ≠ .close ∧ e.event ≠ .error) ∧
      emitted [⟨.source, .data, .chunk [1], false, true, true⟩] = [.chunk [1]] ∧
      writes (promisinglyPipe.calls [⟨.source, .data, .chunk [1], false, true, true⟩]) = [] := by
  decide

/-- C1, amended: over every sequence of stream events, the chunks passed to
`destination.write` are exactly, in order, the chunks the source emits before
the first `end`, `close` or `error` event while `destination.writable`
holds. -/
theorem pipe_writes_chunks_in_order (es : List Emit) :
    writes (promisinglyPipe.calls es) = emittedWhileWritable es := by
  induction es with
  | nil => rfl
  | cons e rest ih =>
    cases hd : e.detaches with
    | true =>
      have h := emit_detaching e hd
      simp [Pipe.calls, h.2, calls_detached _ rest h.1, emittedWhileWritable, hd, writes]
    | false =>
      have h := emit_attached e hd
      simp only [Pipe.calls, h, writes_append, ih, emittedWhileWritable, List.takeWhile_cons, hd,
        Bool.not_false, if_true, List.filter_cons]
      by_cases hw : (e.isData && e.writable) = true
      · by_cases hr : e.write_result = false <;> simp [hw, hr, writes]
      · by_cases hr : e.emitter = .destination ∧ e.event = .drain ∧ e.readable = true <;>
          simp [hw, hr, writes]

theorem emit_calls_cases (p : Pipe) (e : Emit)
    (hp : p = promisinglyPipe ∨ p.listeners = []) :
    (emit p e).2 = [] ∨
      (e.write_result = false ∧
        (emit p e).2 = [(.destination, .write e.arg), (.source, .pause)]) ∨
      (e.write_result = true ∧ (emit p e).2 = [(.destination, .write e.arg)]) ∨
      (e.emitter = .destination ∧ e.event = .drain ∧ e.readable = true ∧
        (emit p e).2 = [(.source, .resume)]) := by
  rcases hp with h | h
  · subst h
    cases hd : e.detaches with
    | true => exact Or.inl (emit_detaching e hd).2
    | false =>
      rw [emit_attached e hd]
      by_cases hw : (e.isData && e.writable) = true
      · cases hr : e.write_result <;> simp [hw]
      · by_cases hr : e.emitter = .destination ∧ e.event = .drain ∧ e.readable = true
        · simp [hw, hr]
        · simp [hw, hr]
  · exact Or.inl (by rw [emit_detached p e h])

theorem no_resume_without_drain (p : Pipe) (mid : List Emit)
    (hp : p = promisinglyPipe ∨ p.listeners = [])
    (hmid : ∀ x ∈ mid, ¬ (x.emitter = .destination ∧ x.event = .drain)) :
    (Side.source, Call.resume) ∉ Pipe.calls p mid := by
  induction mid generalizing p with
  | nil => simp [Pipe.calls]
  | cons x rest ih =>
    have hx := hmid x (List.mem_cons_self _ _)
    have hrest : ∀ y ∈ rest, ¬ (y.emitter = .destination ∧ y.event = .drain) :=
      fun y hy => hmid y (List.mem_cons_of_mem _ hy)
    have hnext : (emit p x).1 = promisinglyPipe ∨ (emit p x).1.listeners = [] := by
      rcases hp with h | h
      · subst h
        cases hd : x.detaches with
        | true => exact Or.inr (emit_detaching x hd).1
        | false => left; rw [emit_attached x hd]
      · right; rw [emit_detached p x h]; exact h
    simp only [Pipe.calls, List.mem_append, not_or]
    refine ⟨?_, ih _ hnext hrest⟩
    rcases emit_calls_cases p x hp with h | ⟨_, h⟩ | ⟨_, h⟩ | ⟨h1, h2, _, _⟩
    · simp [h]
    · simp [h]
    · simp [h]
    · exact absurd ⟨h1, h2⟩ hx

/-- C2: at every event `e` of every sequence of events, a `destination.write`
that returns false is followed by `source.pause()` in the handling of that
chunk; `source.resume()` is called only in the handling of a `drain` event of
the destination with `source.readable` true; and after `e` no
`source.resume()` is called before the next `drain` event. -/
theorem pipe_backpressure (es : List Emit) (e : Emit) :
    (∀ v, (Side.destination, Call.write v) ∈ (emit (promisinglyPipe.after es) e).2 →
        e.write_result = false →
        (emit (promisinglyPipe.after es) e).2
          = [(.destination, .write v), (.source, .pause)]) ∧
      ((Side.source, Call.resume) ∈ (emit (promisinglyPipe.after es) e).2 →
        e.emitter = .destination ∧ e.event = .drain ∧ e.readable = true) ∧
      (∀ mid : List Emit, (∀ x ∈ mid, ¬ (x.emitter = .destination ∧ x.event = .drain)) →
        (Side.source, Call.resume) ∉ Pipe.calls (emit (promisinglyPipe.after es) e).1 mid) := by
  have hp := attached_or_detached es
  refine ⟨?_, ?_, ?_⟩
  · intro v hv hr
    rcases emit_calls_cases _ e hp with h | ⟨_, h⟩ | ⟨h1, _⟩ | ⟨_, _, _, h⟩
    · simp [h] at hv
    · rw [h] at hv ⊢
      simp at hv
      rw [hv]
    · rw [hr] at h1; exact absurd h1 (by decide)
    · simp [h] at hv
  · intro hv
    rcases emit_calls_cases _ e hp with h | ⟨_, h⟩ | ⟨_, h⟩ | ⟨h1, h2, h3, _⟩
    · simp [h] at hv
    · simp [h] at hv
    · simp [h] at hv
    · exact ⟨h1, h2, h3⟩
  · intro mid hmid
    have h := attached_or_detached (es ++ [e])
    rw [after_append] at h
    exact no_resume_without_drain _ mid h hmid

/-- C2 at a concrete run: a chunk whose write reports a full destination,
then another chunk; the source is paused and not resumed. -/
theorem pipe_backpressure_witness :
    (emit (promisinglyPipe.after []) ⟨.source, .data, .chunk [7], true, false, true⟩).2
        = [(.destination, .write (.chunk [7])), (.source, .pause)] ∧
      (Side.source, Call.resume) ∉
        Pipe.calls (emit (promisinglyPipe.after []) ⟨.source, .data, .chunk [7], true, false, true⟩).1
          [⟨.source, .data, .chunk [8], true, true, true⟩] :=
  ⟨(pipe_backpressure [] ⟨.source, .data, .chunk [7], true, false, true⟩).1 (.chunk [7])
      (by decide) rfl,
    (pipe_backpressure [] ⟨.source, .data, .chunk [7], true, false, true⟩).2.2
      [⟨.source, .data, .chunk [8], true, true, true⟩] (by decide)⟩

/-- C8: once the deferred of a pipe has settled, no later sequence of events
changes its outcome, the pipe has no listener left (then and ever after) and
makes no further call on its streams; and in every state running `cleanup` a
second time changes nothing. -/
theorem pipe_settlement_terminal (es later : List Emit) :
    ((promisinglyPipe.after es).deferred.settled = true →
        ((promisinglyPipe.after es).after later).deferred = (promisinglyPipe.after es).deferred ∧
        (promisinglyPipe.after es).listeners = [] ∧
        ((promisinglyPipe.after es).after later).listeners = [] ∧
        Pipe.calls (promisinglyPipe.after es) later = []) ∧
      cleanup (cleanup (promisinglyPipe.after es)) = cleanup (promisinglyPipe.after es) := by
  constructor
  · intro h
    have hd := settled_detached es h
    rw [after_detached _ later hd, calls_detached _ later hd]
    exact ⟨rfl, hd, hd, rfl⟩
  · rcases attached_or_detached es with h | h
    · rw [h]
      simp [promisinglyPipe, cleanup_registered, cleanup_detached]
    · generalize promisinglyPipe.after es = p at h ⊢
      obtain ⟨ls, d⟩ := p
      simp only at h
      subst h
      simp [cleanup_detached]

/-- C8 at a concrete run: the source closes, then emits a chunk and `end`. -/
theorem pipe_settlement_terminal_witness :
    ((promisinglyPipe.after [⟨.source, .close, .undefined, true, true, true⟩]).after
        [⟨.source, .data, .chunk [1], true, true, true⟩,
          ⟨.source, .end_, .undefined, true, true, true⟩]).deferred
      = .rejected (.error "Source stream in the pipe has been closed." .undefined) ∧
    Pipe.calls (promisinglyPipe.after [⟨.source, .close, .undefined, true, true, true⟩])
        [⟨.source, .data, .chunk [1], true, true, true⟩,
          ⟨.source, .end_, .undefined, true, true, true⟩] = [] := by
  have h := (pipe_settlement_terminal [⟨.source, .close, .undefined, true, true, true⟩]
    [⟨.source, .data, .chunk [1], true, true, true⟩,
      ⟨.source, .end_, .undefined, true, true, true⟩]).1 (by decide)
  exact ⟨h.1.trans (by decide), h.2.2.2⟩

/-- C9 as stated fails: when the destination emits `end` first, the pipe
removes its listeners, and the `end` of the source, although it comes before
any `close` or `error`, no longer resolves the deferred. -/
theorem pipe_pending_after_destination_end :
    (∀ e ∈ [(⟨.destination, .end_, .undefined, true, true, true⟩ : Emit)],
        e.event ≠ .close ∧ e.event ≠ .error) ∧
      (promisinglyPipe.after
        [⟨.destination, .end_, .undefined, true, true, true⟩,
          ⟨.source, .end_, .undefined, true, true, true⟩]).deferred = .pending := by
  decide

/-- C9, amended: when the source emits `end` before any `end`, `close` or
`error` event of either stream, the deferred is fulfilled, whatever follows;
and every call the pipe makes on its streams is a `write` on the destination,
a `pause` or `resume` of the source, or the `pipe` notification it emits on
the destination when it is set up. -/
theorem pipe_resolves_on_end (before later : List Emit) (e : Emit)
    (hsrc : e.emitter = .source) (hend : e.event = .end_)
    (hbefore : ∀ x ∈ before, x.detaches = false) :
    (promisinglyPipe.after (before ++ e :: later)).deferred = .fulfilled () ∧
      ∀ c ∈ promisinglyPipe_setup ++ promisinglyPipe.calls (before ++ e :: later),
        (∃ v, c = (.destination, .write v)) ∨ c = (.source, .pause) ∨ c = (.source, .resume) ∨
          c = (.destination, .emit_pipe) := by
  constructor
  · have h1 : promisinglyPipe.after before = promisinglyPipe := by
      induction before using List.reverseRecOn with
      | nil => rfl
      | append_singleton xs x ih =>
        rw [after_append, ih (fun y hy => hbefore y (by simp [hy]))]
        simp [Pipe.after, emit_attached x (hbefore x (by simp))]
    rw [after_append, h1, after_cons]
    obtain ⟨em, ev, arg, w, wr, r⟩ := e
    simp only at hsrc hend
    subst hsrc hend
    have h2 : emit promisinglyPipe ⟨.source, .end_, arg, w, wr, r⟩
        = ({ listeners := [], deferred := .fulfilled () }, []) := by
      simp [emit, subscribed_registered, handlersFor, promisinglyPipe, runHandlers, runHandler,
        cleanup_registered, Promise.resolve]
    rw [h2, after_detached _ later rfl]
  · generalize before ++ e :: later = es
    intro c hmem
    rcases List.mem_append.mp hmem with hc | hc
    · simp [promisinglyPipe_setup] at hc
      exact Or.inr (Or.inr (Or.inr hc))
    clear hmem
    induction es using List.reverseRecOn with
    | nil => simp [Pipe.calls] at hc
    | append_singleton xs x ih =>
      rw [calls_append] at hc
      rcases List.mem_append.mp hc with h | h
      · exact ih h
      · simp only [Pipe.calls, List.append_nil] at h
        rcases emit_calls_cases _ x (attached_or_detached xs) with h0 | ⟨_, h0⟩ | ⟨_, h0⟩ |
          ⟨_, _, _, h0⟩
        · simp [h0] at h
        · rw [h0] at h
          simp at h
          rcases h with h | h
          · exact Or.inl ⟨_, h⟩
          · exact Or.inr (Or.inl h)
        · rw [h0] at h
          simp at h
          exact Or.inl ⟨_, h⟩
        · rw [h0] at h
          simp at h
          exact Or.inr (Or.inr (Or.inl h))

/-- C9 at a concrete run: a chunk, then `end`, then `close`. -/
theorem pipe_resolves_on_end_witness :
    (promisinglyPipe.after ([⟨.source, .data, .chunk [1], true, true, true⟩] ++
        ⟨.source, .end_, .undefined, true, true, true⟩ ::
          [⟨.source, .close, .undefined, true, true, true⟩])).deferred = .fulfilled () :=
  (pipe_resolves_on_end [⟨.source, .data, .chunk [1], true, true, true⟩]
    [⟨.source, .close, .undefined, true, true, true⟩]
    ⟨.source, .end_, .undefined, true, true, true⟩ rfl rfl (by decide)).1

/-! ## Theorems: execute -/

theorem emit_source_end (arg : Value) (w wr r : Bool) :
    emit promisinglyPipe ⟨.source, .end_, arg, w, wr, r⟩
      = ({ listeners := [], deferred := .fulfilled () }, []) := by
  simp [emit, subscribed_registered, handlersFor, promisinglyPipe, runHandlers, runHandler,
    cleanup_registered, Promise.resolve]

theorem emit_destination_close (arg : Value) (w wr r : Bool) :
    emit promisinglyPipe ⟨.destination, .close, arg, w, wr, r⟩
      = ({ listeners := [],
           deferred := .rejected
             (.error "Destination stream in the pipe has been closed." .undefined) }, []) := by
  simp [emit, subscribed_registered, handlersFor, promisinglyPipe, runHandlers, runHandler,
    cleanup_registered, Promise.reject]

theorem cleanup_deferred (p : Pipe) : (cleanup p).deferred = p.deferred := by
  simp [cleanup]

theorem resolve_settled {α : Type} (d : Promise α) (v : α) (h : d.settled = true) :
    d.resolve v = d := by
  cases d <;> simp [Promise.settled] at h <;> rfl

theorem reject_settled {α : Type} (d : Promise α) (v : Value) (h : d.settled = true) :
    d.reject v = d := by
  cases d <;> simp [Promise.settled] at h <;> rfl

theorem settled_of_rejected {α : Type} (d : Promise α) (h : d.isRejected = true) :
    d.settled = true := by
  cases d <;> simp [Promise.isRejected] at h
  rfl

theorem runHandler_settled (h : Handler) (e : Emit) (p : Pipe)
    (hp : p.deferred.settled = true) : (runHandler h e p).1.deferred = p.deferred := by
  cases h
  · simp only [runHandler]; split <;> (try split) <;> rfl
  · simp only [runHandler]; split <;> rfl
  · simp [runHandler, resolve_settled _ _ hp]
  · simp [runHandler, reject_settled _ _ hp]
  · simp [runHandler, reject_settled _ _ hp]
  · simp [runHandler, cleanup_deferred, reject_settled _ _ hp]
  · simp [runHandler, cleanup_deferred]

theorem runHandlers_settled (hs : List Handler) (e : Emit) (p : Pipe)
    (hp : p.deferred.settled = true) : (runHandlers hs e p).1.deferred = p.deferred := by
  induction hs generalizing p with
  | nil => rfl
  | cons h rest ih =>
    have h1 := runHandler_settled h e p hp
    simp only [runHandlers]
    rw [ih _ (by rw [h1]; exact hp), h1]

theorem emit_settled (p : Pipe) (e : Emit) (hp : p.deferred.settled = true) :
    (emit p e).1.deferred = p.deferred :=
  runHandlers_settled _ e p hp

theorem emit_rejected (p : Pipe) (e : Emit) (hp : p.deferred.isRejected = true) :
    (emit p e).1.deferred.isRejected = true := by
  rw [emit_settled p e (settled_of_rejected _ hp)]
  exact hp

theorem runHandler_no_destroy (h : Handler) (e : Emit) (p : Pipe) :
    ∀ c ∈ (runHandler h e p).2, c.2 ≠ Call.destroy := by
  cases h <;> simp only [runHandler]
  · split <;> (try split) <;> simp
  · split <;> simp
  all_goals simp

theorem runHandlers_no_destroy (hs : List Handler) (e : Emit) (p : Pipe) :
    ∀ c ∈ (runHandlers hs e p).2, c.2 ≠ Call.destroy := by
  induction hs generalizing p with
  | nil => simp [runHandlers]
  | cons h rest ih =>
    intro c hc
    simp only [runHandlers, List.mem_append] at hc
    rcases hc with hc | hc
    · exact runHandler_no_destroy h e p c hc
    · exact ih _ c hc

theorem emit_no_destroy (p : Pipe) (e : Emit) : ∀ c ∈ (emit p e).2, c.2 ≠ Call.destroy :=
  runHandlers_no_destroy _ e p

theorem onStreams_no_destroy (a b stream : StreamId) (cs : List (Side × Call))
    (h : ∀ c ∈ cs, c.2 ≠ Call.destroy) : (stream, Call.destroy) ∉ onStreams a b cs := by
  intro hmem
  simp only [onStreams, List.mem_map] at hmem
  obtain ⟨⟨side, call⟩, hc, heq⟩ := hmem
  have hne := h _ hc
  cases side <;> simp at heq <;> exact hne heq.2

theorem count_onStreams (a b : StreamId) (p : Pipe) (e : Emit) (l : List (StreamId × Call)) :
    (l ++ onStreams a b (emit p e).2).count (StreamId.output_stream, Call.destroy)
      = l.count (StreamId.output_stream, Call.destroy) := by
  rw [List.count_append,
    List.count_eq_zero.mpr (onStreams_no_destroy a b _ _ (emit_no_destroy p e))]
  rfl

theorem exec_after_append (s : Exec) (evs fvs : List ExecEvent) :
    s.after (evs ++ fvs) = (s.after evs).after fvs := by
  simp [Exec.after]

theorem exec_after_cons (s : Exec) (ev : ExecEvent) (evs : List ExecEvent) :
    s.after (ev :: evs) = (s.step ev).after evs := rfl

/-- What the callbacks of the input pipe leave as it is, and what they do to
the shared deferred. -/
theorem input_callbacks_frame (s : Exec) :
    (input_pipe_callbacks s).input_pipe = s.input_pipe ∧
      (input_pipe_callbacks s).output_pipe = s.output_pipe ∧
      (input_pipe_callbacks s).output_pipe_promise = s.output_pipe_promise ∧
      (input_pipe_callbacks s).calls.count (StreamId.output_stream, Call.destroy)
        = s.calls.count (StreamId.output_stream, Call.destroy) ∧
      (∀ c ∈ s.calls, c ∈ (input_pipe_callbacks s).calls) ∧
      ((input_pipe_callbacks s).deferred = s.deferred ∨
        (s.input_pipe.deferred.isRejected = true ∧
          ∃ err, (input_pipe_callbacks s).deferred = s.deferred.reject err)) := by
  unfold input_pipe_callbacks
  split
  · simp [List.count_cons]
    intro a b h
    exact Or.inl h
  · next hr =>
    simp [List.count_cons, hr, Promise.isRejected]
    intro a b h
    exact Or.inl h
  · simp

/-- What the callbacks of the output pipe leave as it is, and what they do to
the shared deferred. -/
theorem output_callbacks_frame (s : Exec) :
    (output_pipe_callbacks s).input_pipe = s.input_pipe ∧
      (output_pipe_callbacks s).output_pipe = s.output_pipe ∧
      (output_pipe_callbacks s).input_pipe_promise = s.input_pipe_promise ∧
      (∀ c ∈ s.calls, c ∈ (output_pipe_callbacks s).calls) ∧
      ((output_pipe_callbacks s).deferred = s.deferred ∨
        (s.output_pipe.deferred.isRejected = true ∧
          (output_pipe_callbacks s).output_pipe_promise ≠ .pending ∧
          ∃ err, (output_pipe_callbacks s).deferred = s.deferred.reject err)) := by
  unfold output_pipe_callbacks
  split
  · simp
  · next hr =>
    simp [hr, Promise.isRejected]
    intro a b h
    exact Or.inl h
  · simp

theorem on_execute_frame (s : Exec) (code : Int) (message : String) (rest : List Value) :
    (on_execute s code message rest).input_pipe = s.input_pipe ∧
      (on_execute s code message rest).output_pipe = s.output_pipe ∧
      (on_execute s code message rest).input_pipe_promise = s.input_pipe_promise ∧
      (on_execute s code message rest).output_pipe_promise = s.output_pipe_promise ∧
      (on_execute s code message rest).calls.count (StreamId.output_stream, Call.destroy)
        = s.calls.count (StreamId.output_stream, Call.destroy) ∧
      (∀ c ∈ s.calls, c ∈ (on_execute s code message rest).calls) := by
  unfold on_execute
  split <;> simp [List.count_cons] <;> intro a b h <;> exact Or.inl h

/-- A settled deferred is not changed by any event. -/
theorem step_settled (s : Exec) (ev : ExecEvent) (h : s.deferred.settled = true) :
    (s.step ev).deferred = s.deferred := by
  cases ev with
  | input e => rfl
  | output e => rfl
  | run_input_callbacks =>
    rcases (input_callbacks_frame s).2.2.2.2.2 with h1 | ⟨_, err, h1⟩
    · exact h1
    · exact h1.trans (reject_settled _ _ h)
  | run_output_callbacks =>
    rcases (output_callbacks_frame s).2.2.2.2 with h1 | ⟨_, _, err, h1⟩
    · exact h1
    · exact h1.trans (reject_settled _ _ h)
  | engine code message rest =>
    simp only [Exec.step, on_execute]
    split <;> simp [resolve_settled _ _ h, reject_settled _ _ h]

theorem exec_after_settled (s : Exec) (evs : List ExecEvent) (h : s.deferred.settled = true) :
    (s.after evs).deferred = s.deferred := by
  induction evs generalizing s with
  | nil => rfl
  | cons ev rest ih =>
    rw [exec_after_cons, ih _ (by rw [step_settled s ev h]; exact h), step_settled s ev h]

theorem step_calls (s : Exec) (ev : ExecEvent) (c : StreamId × Call) (h : c ∈ s.calls) :
    c ∈ (s.step ev).calls := by
  cases ev with
  | input e => simp [Exec.step, h]
  | output e => simp [Exec.step, h]
  | run_input_callbacks => exact (input_callbacks_frame s).2.2.2.2.1 c h
  | run_output_callbacks => exact (output_callbacks_frame s).2.2.2.1 c h
  | engine code message rest => exact (on_execute_frame s code message rest).2.2.2.2.2 c h

theorem exec_after_calls (s : Exec) (evs : List ExecEvent) (c : StreamId × Call)
    (h : c ∈ s.calls) : c ∈ (s.after evs).calls := by
  induction evs generalizing s with
  | nil => exact h
  | cons ev rest ih => exact ih _ (step_calls s ev c h)

/-- A rejected pipe stays rejected. -/
theorem step_pipes_rejected (s : Exec) (ev : ExecEvent) :
    (s.input_pipe.deferred.isRejected = true →
        (s.step ev).input_pipe.deferred.isRejected = true) ∧
      (s.output_pipe.deferred.isRejected = true →
        (s.step ev).output_pipe.deferred.isRejected = true) := by
  cases ev with
  | input e => exact ⟨fun h => emit_rejected _ e h, fun h => h⟩
  | output e => exact ⟨fun h => h, fun h => emit_rejected _ e h⟩
  | run_input_callbacks =>
    simp only [Exec.step]
    rw [(input_callbacks_frame s).1, (input_callbacks_frame s).2.1]
    exact ⟨fun h => h, fun h => h⟩
  | run_output_callbacks =>
    simp only [Exec.step]
    rw [(output_callbacks_frame s).1, (output_callbacks_frame s).2.1]
    exact ⟨fun h => h, fun h => h⟩
  | engine code message rest =>
    simp only [Exec.step]
    rw [(on_execute_frame s code message rest).1, (on_execute_frame s code message rest).2.1]
    exact ⟨fun h => h, fun h => h⟩

theorem after_pipes_rejected (s : Exec) (evs : List ExecEvent) :
    (s.input_pipe.deferred.isRejected = true →
        (s.after evs).input_pipe.deferred.isRejected = true) ∧
      (s.output_pipe.deferred.isRejected = true →
        (s.after evs).output_pipe.deferred.isRejected = true) := by
  induction evs generalizing s with
  | nil => exact ⟨fun h => h, fun h => h⟩
  | cons ev rest ih =>
    rw [exec_after_cons]
    exact ⟨fun h => (ih _).1 ((step_pipes_rejected s ev).1 h),
      fun h => (ih _).2 ((step_pipes_rejected s ev).2 h)⟩

theorem future_rejected (s : Exec) (reason : Value) (h : s.deferred = .rejected reason) :
    s.future = .rejected reason := by
  simp [Exec.future, h]

/-- Before the on-execute callback, the shared deferred is pending unless the
callbacks of a rejected pipe have run. -/
theorem step_pending (s : Exec) (ev : ExecEvent) (hev : ev.isEngine = false)
    (h : s.deferred = .pending ∨ s.input_pipe.deferred.isRejected = true ∨
      (s.output_pipe.deferred.isRejected = true ∧ s.output_pipe_promise ≠ .pending)) :
    (s.step ev).deferred = .pending ∨ (s.step ev).input_pipe.deferred.isRejected = true ∨
      ((s.step ev).output_pipe.deferred.isRejected = true ∧
        (s.step ev).output_pipe_promise ≠ .pending) := by
  cases ev with
  | input e =>
    rcases h with h | h | h
    · exact Or.inl h
    · exact Or.inr (Or.inl (emit_rejected _ e h))
    · exact Or.inr (Or.inr h)
  | output e =>
    rcases h with h | h | h
    · exact Or.inl h
    · exact Or.inr (Or.inl h)
    · exact Or.inr (Or.inr ⟨emit_rejected _ e h.1, h.2⟩)
  | run_input_callbacks =>
    have hf := input_callbacks_frame s
    simp only [Exec.step]
    rw [hf.1, hf.2.1, hf.2.2.1]
    rcases h with h | h | h
    · rcases hf.2.2.2.2.2 with h1 | ⟨h1, _⟩
      · exact Or.inl (h1.trans h)
      · exact Or.inr (Or.inl h1)
    · exact Or.inr (Or.inl h)
    · exact Or.inr (Or.inr h)
  | run_output_callbacks =>
    have hf := output_callbacks_frame s
    simp only [Exec.step]
    rw [hf.1, hf.2.1]
    rcases h with h | h | h
    · rcases hf.2.2.2.2 with h1 | ⟨h1, h2, _⟩
      · exact Or.inl (h1.trans h)
      · exact Or.inr (Or.inr ⟨h1, h2⟩)
    · exact Or.inr (Or.inl h)
    · refine Or.inr (Or.inr ⟨h.1, ?_⟩)
      unfold output_pipe_callbacks
      split
      · next hp _ => exact absurd hp h.2
      · next hp _ => exact absurd hp h.2
      · exact h.2
  | engine code message rest => simp [ExecEvent.isEngine] at hev

theorem after_pending (s : Exec) (evs : List ExecEvent)
    (hev : ∀ ev ∈ evs, ev.isEngine = false)
    (h : s.deferred = .pending ∨ s.input_pipe.deferred.isRejected = true ∨
      (s.output_pipe.deferred.isRejected = true ∧ s.output_pipe_promise ≠ .pending)) :
    (s.after evs).deferred = .pending ∨ (s.after evs).input_pipe.deferred.isRejected = true ∨
      ((s.after evs).output_pipe.deferred.isRejected = true ∧
        (s.after evs).output_pipe_promise ≠ .pending) := by
  induction evs generalizing s with
  | nil => exact h
  | cons ev rest ih =>
    rw [exec_after_cons]
    exact ih _ (fun x hx => hev x (List.mem_cons_of_mem _ hx))
      (step_pending s ev (hev ev (List.mem_cons_self _ _)) h)

/-- C4: when the on-execute callback reports a code other than 0 and neither
pipe has been rejected before it, the promise `execute` returns is rejected
with the result the engine reported, whatever follows, and `destroy()` has
been called on `wrapped_input_stream` and on `wrapped_output_stream`. -/
theorem execute_engine_failure (before later : List ExecEvent) (code : Int) (message : String)
    (rest : List Value) (hcode : code ≠ 0)
    (hfirst : ∀ ev ∈ before, ev.isEngine = false)
    (hin : (execute.after before).input_pipe.deferred.isRejected = false)
    (hout : (execute.after before).output_pipe.deferred.isRejected = false) :
    (execute.after (before ++ .engine code message rest :: later)).future
        = .rejected (.result code message) ∧
      (StreamId.wrapped_input_stream, Call.destroy)
        ∈ (execute.after (before ++ .engine code message rest :: later)).calls ∧
      (StreamId.wrapped_output_stream, Call.destroy)
        ∈ (execute.after (before ++ .engine code message rest :: later)).calls := by
  have hp : (execute.after before).deferred = .pending := by
    rcases after_pending execute before hfirst (Or.inl rfl) with h | h | h
    · exact h
    · rw [hin] at h; exact absurd h (by decide)
    · rw [hout] at h; exact absurd h.1 (by decide)
  rw [exec_after_append, exec_after_cons]
  have hstep : ((execute.after before).step (.engine code message rest)).deferred
      = .rejected (.result code message) := by
    simp [Exec.step, on_execute, hcode, hp, Promise.reject]
  refine ⟨future_rejected _ _ ?_, exec_after_calls _ _ _ ?_, exec_after_calls _ _ _ ?_⟩
  · rw [exec_after_settled _ later (by rw [hstep]; rfl), hstep]
  · simp [Exec.step, on_execute, hcode]
  · simp [Exec.step, on_execute, hcode]

/-- C4 at a concrete run: the input ends and its callback runs, the engine
reports code 1, then the output stream closes and its callback runs. -/
theorem execute_engine_failure_witness :
    (execute.after ([.input ⟨.source, .end_, .undefined, true, true, true⟩,
          .run_input_callbacks] ++
        .engine 1 "failed" [] ::
          [.output ⟨.destination, .close, .undefined, true, true, true⟩,
            .run_output_callbacks])).future
      = .rejected (.result 1 "failed") :=
  (execute_engine_failure
    [.input ⟨.source, .end_, .undefined, true, true, true⟩, .run_input_callbacks]
    [.output ⟨.destination, .close, .undefined, true, true, true⟩, .run_output_callbacks]
    1 "failed" [] (by decide) (by decide) (by decide) (by decide)).1

/-- Once the callbacks of the output pipe have run, `output_stream.destroy()`
is not called any more. -/
theorem step_after_output_settled (s : Exec) (ev : ExecEvent)
    (h : s.output_pipe_promise ≠ .pending) :
    (s.step ev).output_pipe_promise ≠ .pending ∧
      timesCalled (s.step ev) .output_stream .destroy = timesCalled s .output_stream .destroy := by
  cases ev with
  | input e => exact ⟨h, count_onStreams _ _ _ _ _⟩
  | output e => exact ⟨h, count_onStreams _ _ _ _ _⟩
  | run_input_callbacks =>
    simp only [Exec.step, timesCalled]
    rw [(input_callbacks_frame s).2.2.1, (input_callbacks_frame s).2.2.2.1]
    exact ⟨h, rfl⟩
  | run_output_callbacks =>
    have h2 : output_pipe_callbacks s = s := by
      unfold output_pipe_callbacks
      split
      · next hp _ => exact absurd hp h
      · next hp _ => exact absurd hp h
      · rfl
    simp only [Exec.step]
    rw [h2]
    exact ⟨h, rfl⟩
  | engine code message rest =>
    simp only [Exec.step, timesCalled]
    rw [(on_execute_frame _ _ _ _).2.2.2.1, (on_execute_frame _ _ _ _).2.2.2.2.1]
    exact ⟨h, rfl⟩

theorem after_output_settled (s : Exec) (evs : List ExecEvent)
    (h : s.output_pipe_promise ≠ .pending) :
    timesCalled (s.after evs) .output_stream .destroy = timesCalled s .output_stream .destroy := by
  induction evs generalizing s with
  | nil => rfl
  | cons ev rest ih =>
    rw [exec_after_cons, ih _ (step_after_output_settled s ev h).1,
      (step_after_output_settled s ev h).2]

/-- While no `end`, `close` or `error` event has reached the output pipe, it
is as `promisinglyPipe` made it, its callbacks have not run and
`output_stream.destroy()` has not been called. -/
theorem step_output_attached (s : Exec) (ev : ExecEvent)
    (hev : ∀ x, ev = .output x → x.detaches = false)
    (h : s.output_pipe = promisinglyPipe ∧ s.output_pipe_promise = .pending ∧
      timesCalled s .output_stream .destroy = 0) :
    (s.step ev).output_pipe = promisinglyPipe ∧ (s.step ev).output_pipe_promise = .pending ∧
      timesCalled (s.step ev) .output_stream .destroy = 0 := by
  obtain ⟨h1, h2, h3⟩ := h
  cases ev with
  | input e => exact ⟨h1, h2, (count_onStreams _ _ _ _ _).trans h3⟩
  | output e =>
    refine ⟨?_, h2, (count_onStreams _ _ _ _ _).trans h3⟩
    simp only [Exec.step, h1]
    rw [emit_attached e (hev e rfl)]
  | run_input_callbacks =>
    simp only [Exec.step, timesCalled]
    rw [(input_callbacks_frame s).2.1, (input_callbacks_frame s).2.2.1,
      (input_callbacks_frame s).2.2.2.1]
    exact ⟨h1, h2, h3⟩
  | run_output_callbacks =>
    have h4 : output_pipe_callbacks s = s := by
      unfold output_pipe_callbacks
      split
      · next _ hp => rw [h1] at hp; simp [promisinglyPipe] at hp
      · next _ hp => rw [h1] at hp; simp [promisinglyPipe] at hp
      · rfl
    simp only [Exec.step]
    rw [h4]
    exact ⟨h1, h2, h3⟩
  | engine code message rest =>
    simp only [Exec.step, timesCalled]
    rw [(on_execute_frame _ _ _ _).2.1, (on_execute_frame _ _ _ _).2.2.2.1,
      (on_execute_frame _ _ _ _).2.2.2.2.1]
    exact ⟨h1, h2, h3⟩

theorem after_output_attached (s : Exec) (evs : List ExecEvent)
    (hev : ∀ x, ExecEvent.output x ∈ evs → x.detaches = false)
    (h : s.output_pipe = promisinglyPipe ∧ s.output_pipe_promise = .pending ∧
      timesCalled s .output_stream .destroy = 0) :
    (s.after evs).output_pipe = promisinglyPipe ∧ (s.after evs).output_pipe_promise = .pending ∧
      timesCalled (s.after evs) .output_stream .destroy = 0 := by
  induction evs generalizing s with
  | nil => exact h
  | cons ev rest ih =>
    rw [exec_after_cons]
    refine ih _ (fun x hx => hev x (List.mem_cons_of_mem _ hx)) (step_output_attached s ev ?_ h)
    intro x hx
    exact hev x (by rw [hx]; exact List.mem_cons_self _ _)

/-- Between the settlement of the output pipe and the turn of its callbacks,
the pipe, which has no listener left, stays as it is, and
`output_stream.destroy()` is not called. -/
theorem step_output_waiting (s : Exec) (ev : ExecEvent) (p : Pipe) (hp : p.listeners = [])
    (hev : ev ≠ .run_output_callbacks)
    (h : s.output_pipe = p ∧ s.output_pipe_promise = .pending ∧
      timesCalled s .output_stream .destroy = 0) :
    (s.step ev).output_pipe = p ∧ (s.step ev).output_pipe_promise = .pending ∧
      timesCalled (s.step ev) .output_stream .destroy = 0 := by
  obtain ⟨h1, h2, h3⟩ := h
  cases ev with
  | input e => exact ⟨h1, h2, (count_onStreams _ _ _ _ _).trans h3⟩
  | output e =>
    refine ⟨?_, h2, (count_onStreams _ _ _ _ _).trans h3⟩
    simp only [Exec.step, h1]
    rw [emit_detached p e hp]
  | run_input_callbacks =>
    simp only [Exec.step, timesCalled]
    rw [(input_callbacks_frame s).2.1, (input_callbacks_frame s).2.2.1,
      (input_callbacks_frame s).2.2.2.1]
    exact ⟨h1, h2, h3⟩
  | run_output_callbacks => exact absurd rfl hev
  | engine code message rest =>
    simp only [Exec.step, timesCalled]
    rw [(on_execute_frame _ _ _ _).2.1, (on_execute_frame _ _ _ _).2.2.2.1,
      (on_execute_frame _ _ _ _).2.2.2.2.1]
    exact ⟨h1, h2, h3⟩

theorem after_output_waiting (s : Exec) (evs : List ExecEvent) (p : Pipe) (hp : p.listeners = [])
    (hev : ExecEvent.run_output_callbacks ∉ evs)
    (h : s.output_pipe = p ∧ s.output_pipe_promise = .pending ∧
      timesCalled s .output_stream .destroy = 0) :
    (s.after evs).output_pipe = p ∧ (s.after evs).output_pipe_promise = .pending ∧
      timesCalled (s.after evs) .output_stream .destroy = 0 := by
  induction evs generalizing s with
  | nil => exact h
  | cons ev rest ih =>
    rw [exec_after_cons]
    refine ih _ (fun hx => hev (List.mem_cons_of_mem _ hx)) (step_output_waiting s ev p hp ?_ h)
    intro hx
    exact hev (by rw [hx]; exact List.mem_cons_self _ _)

/-- C5 as stated fails: `output_stream` closes first, before anything else
has happened, but the engine reports code 0 before `Q` runs the rejection
callback of the output pipe; the shared deferred is then already resolved, the
callback destroys the streams without rejecting it, and the promise `execute`
returns is fulfilled with the result of the engine once the input pipe has
completed. -/
theorem output_closes_then_engine_succeeds :
    (execute.after
        [.output ⟨.destination, .close, .undefined, true, true, true⟩]).output_pipe.deferred
        = .rejected (.error "Destination stream in the pipe has been closed." .undefined) ∧
      (execute.after
        [.output ⟨.destination, .close, .undefined, true, true, true⟩, .engine 0 "ok" [],
          .run_output_callbacks]).future = .pending ∧
      (execute.after
        [.output ⟨.destination, .close, .undefined, true, true, true⟩, .engine 0 "ok" [],
          .run_output_callbacks, .input ⟨.source, .end_, .undefined, true, true, true⟩,
          .run_input_callbacks]).future = .fulfilled [.result 0 "ok"] := by
  decide

/-- C5, amended: when `output_stream` closes before any `end`, `close` or
`error` event of the output pipe, then once `Q` has run the callbacks of the
output pipe `output_stream.destroy()` has been called exactly once and
`wrapped_output_stream.destroy()` has been called, whatever else happens; and
when, up to the turn of these callbacks, the on-execute callback has not been
invoked and the input pipe has not been rejected, the promise `execute`
returns is rejected with the error `Output pipe has been cancelled` wrapping
the error of the pipe, whatever follows. -/
theorem execute_output_failure (before waiting later : List ExecEvent) (e : Emit)
    (hclose : e.emitter = .destination ∧ e.event = .close)
    (hout : ∀ x, ExecEvent.output x ∈ before → x.detaches = false)
    (hwaiting : ExecEvent.run_output_callbacks ∉ waiting) :
    (timesCalled
        (execute.after (before ++ .output e :: (waiting ++ .run_output_callbacks :: later)))
        .output_stream .destroy = 1 ∧
      (StreamId.wrapped_output_stream, Call.destroy) ∈
        (execute.after
          (before ++ .output e :: (waiting ++ .run_output_callbacks :: later))).calls) ∧
    ((∀ ev ∈ before ++ .output e :: waiting, ev.isEngine = false) →
      (execute.after (before ++ .output e :: waiting)).input_pipe.deferred.isRejected = false →
      (execute.after
          (before ++ .output e :: (waiting ++ .run_output_callbacks :: later))).future
        = .rejected (.error "Output pipe has been cancelled"
            (.error "Destination stream in the pipe has been closed." .undefined))) := by
  obtain ⟨em, ev, arg, w, wr, r⟩ := e
  simp only at hclose
  obtain ⟨hc1, hc2⟩ := hclose
  subst hc1 hc2
  obtain ⟨h1, h2, h3⟩ := after_output_attached execute before hout ⟨rfl, rfl, by decide⟩
  have hstate : execute.after (before ++ .output ⟨.destination, .close, arg, w, wr, r⟩ :: waiting)
      = ((execute.after before).step
          (.output ⟨.destination, .close, arg, w, wr, r⟩)).after waiting := by
    rw [exec_after_append, exec_after_cons]
  have hall : execute.after (before ++ .output ⟨.destination, .close, arg, w, wr, r⟩ ::
        (waiting ++ .run_output_callbacks :: later))
      = ((execute.after
          (before ++ .output ⟨.destination, .close, arg, w, wr, r⟩ :: waiting)).step
            .run_output_callbacks).after later := by
    rw [hstate, exec_after_append, exec_after_cons, exec_after_append, exec_after_cons]
  obtain ⟨k1, k2, k3⟩ := after_output_waiting
    ((execute.after before).step (.output ⟨.destination, .close, arg, w, wr, r⟩)) waiting
    { listeners := [], deferred := .rejected
        (.error "Destination stream in the pipe has been closed." .undefined) } rfl hwaiting
    ⟨by simp only [Exec.step, h1]; rw [emit_destination_close], h2,
      (count_onStreams _ _ _ _ _).trans h3⟩
  rw [← hstate] at k1 k2 k3
  have hinv := fun h => after_pending execute
    (before ++ .output ⟨.destination, .close, arg, w, wr, r⟩ :: waiting) h (Or.inl rfl)
  generalize execute.after (before ++ .output ⟨.destination, .close, arg, w, wr, r⟩ :: waiting)
    = s at hall k1 k2 k3 hinv ⊢
  rw [hall]
  have hopp : (s.step .run_output_callbacks).output_pipe_promise = .fulfilled () := by
    simp [Exec.step, output_pipe_callbacks, k1, k2]
  have hcalls : (s.step .run_output_callbacks).calls
      = s.calls ++ [(.output_stream, .destroy), (.wrapped_output_stream, .destroy)] := by
    simp [Exec.step, output_pipe_callbacks, k1, k2]
  have hd : (s.step .run_output_callbacks).deferred
      = s.deferred.reject (.error "Output pipe has been cancelled"
          (.error "Destination stream in the pipe has been closed." .undefined)) := by
    simp [Exec.step, output_pipe_callbacks, k1, k2]
  refine ⟨⟨?_, exec_after_calls _ _ _ (by simp [hcalls])⟩, ?_⟩
  · rw [after_output_settled _ later (by simp [hopp])]
    simp only [timesCalled] at k3 ⊢
    simp [hcalls, List.count_append, k3, List.count_cons]
  · intro hengine hin
    have hp : s.deferred = .pending := by
      rcases hinv hengine with h | h | h
      · exact h
      · rw [hin] at h; exact absurd h (by decide)
      · exact absurd k2 h.2
    refine future_rejected _ _ ?_
    rw [exec_after_settled _ later (by rw [hd, hp]; rfl), hd, hp]
    rfl

/-- C5 at a concrete run: a chunk of output, then `output_stream` closes; the
input ends before `Q` runs the callbacks of the output pipe, and the engine
reports code 0 after it. -/
theorem execute_output_failure_witness :
    timesCalled (execute.after ([.output ⟨.source, .data, .chunk [1], true, true, true⟩] ++
        .output ⟨.destination, .close, .undefined, true, true, true⟩ ::
          ([.input ⟨.source, .end_, .undefined, true, true, true⟩] ++
            .run_output_callbacks :: [.engine 0 "ok" [], .run_input_callbacks])))
        .output_stream .destroy = 1 ∧
      (execute.after ([.output ⟨.source, .data, .chunk [1], true, true, true⟩] ++
        .output ⟨.destination, .close, .undefined, true, true, true⟩ ::
          ([.input ⟨.source, .end_, .undefined, true, true, true⟩] ++
            .run_output_callbacks :: [.engine 0 "ok" [], .run_input_callbacks]))).future
        = .rejected (.error "Output pipe has been cancelled"
            (.error "Destination stream in the pipe has been closed." .undefined)) :=
  ⟨(execute_output_failure [.output ⟨.source, .data, .chunk [1], true, true, true⟩]
      [.input ⟨.source, .end_, .undefined, true, true, true⟩]
      [.engine 0 "ok" [], .run_input_callbacks]
      ⟨.destination, .close, .undefined, true, true, true⟩ ⟨rfl, rfl⟩
      (by intro x hx; simp at hx; subst hx; decide) (by decide)).1.1,
    (execute_output_failure [.output ⟨.source, .data, .chunk [1], true, true, true⟩]
      [.input ⟨.source, .end_, .undefined, true, true, true⟩]
      [.engine 0 "ok" [], .run_input_callbacks]
      ⟨.destination, .close, .undefined, true, true, true⟩ ⟨rfl, rfl⟩
      (by intro x hx; simp at hx; subst hx; decide) (by decide)).2 (by decide) (by decide)⟩

theorem isRejected_resolve {α : Type} (d : Promise α) (v : α) :
    (d.resolve v).isRejected = d.isRejected := by
  cases d <;> rfl

theorem fulfilled_of_reject {α : Type} (d : Promise α) (err : Value) (v : α)
    (h : d.reject err = .fulfilled v) : d = .fulfilled v := by
  cases d <;> simp [Promise.reject] at h ⊢
  exact h

theorem fulfilled_of_resolve {α : Type} (d : Promise α) (u v : α)
    (h : d.resolve u = .fulfilled v) : d = .fulfilled v ∨ v = u := by
  cases d with
  | pending => simp [Promise.resolve] at h; exact Or.inr h.symm
  | fulfilled x => simp [Promise.resolve] at h; exact Or.inl (by rw [h])
  | rejected e => simp [Promise.resolve] at h

theorem settled_resolve {α : Type} (d : Promise α) (v : α) : (d.resolve v).settled = true := by
  cases d <;> rfl

/-- The promises made by `Q.when` are never rejected: their callbacks
return. -/
theorem step_when_promises (s : Exec) (ev : ExecEvent)
    (h : s.input_pipe_promise.isRejected = false ∧ s.output_pipe_promise.isRejected = false) :
    (s.step ev).input_pipe_promise.isRejected = false ∧
      (s.step ev).output_pipe_promise.isRejected = false := by
  cases ev with
  | input e => exact h
  | output e => exact h
  | run_input_callbacks =>
    simp only [Exec.step]
    rw [(input_callbacks_frame s).2.2.1]
    refine ⟨?_, h.2⟩
    unfold input_pipe_callbacks
    split
    · rfl
    · rfl
    · exact h.1
  | run_output_callbacks =>
    simp only [Exec.step]
    rw [(output_callbacks_frame s).2.2.1]
    refine ⟨h.1, ?_⟩
    unfold output_pipe_callbacks
    split
    · rfl
    · rfl
    · exact h.2
  | engine code message rest =>
    simp only [Exec.step]
    rw [(on_execute_frame _ _ _ _).2.2.1, (on_execute_frame _ _ _ _).2.2.2.1]
    exact h

/-- When the engine only reports code 0, the shared deferred is rejected only
after a pipe has been. -/
theorem step_rejected_cause (s : Exec) (ev : ExecEvent) (message : String) (rest : List Value)
    (hev : ev.isEngine = true → ev = .engine 0 message rest)
    (h : (s.step ev).deferred.isRejected = true) :
    s.deferred.isRejected = true ∨ s.input_pipe.deferred.isRejected = true ∨
      s.output_pipe.deferred.isRejected = true := by
  cases ev with
  | input e => exact Or.inl h
  | output e => exact Or.inl h
  | run_input_callbacks =>
    rcases (input_callbacks_frame s).2.2.2.2.2 with h1 | ⟨h1, _⟩
    · simp only [Exec.step] at h
      rw [h1] at h
      exact Or.inl h
    · exact Or.inr (Or.inl h1)
  | run_output_callbacks =>
    rcases (output_callbacks_frame s).2.2.2.2 with h1 | ⟨h1, _⟩
    · simp only [Exec.step] at h
      rw [h1] at h
      exact Or.inl h
    · exact Or.inr (Or.inr h1)
  | engine code m r =>
    have h0 := hev rfl
    simp only [ExecEvent.engine.injEq] at h0
    obtain ⟨hc, _, _⟩ := h0
    subst hc
    simp only [Exec.step, on_execute, if_true] at h
    rw [isRejected_resolve] at h
    exact Or.inl h

/-- When the engine only reports code 0 with one result, the shared deferred
is fulfilled with no other value than the arguments of the callback. -/
theorem step_fulfilled_cause (s : Exec) (ev : ExecEvent) (message : String) (rest : List Value)
    (hev : ev.isEngine = true → ev = .engine 0 message rest) (v : List Value)
    (h : (s.step ev).deferred = .fulfilled v) :
    s.deferred = .fulfilled v ∨ v = .result 0 message :: rest := by
  cases ev with
  | input e => exact Or.inl h
  | output e => exact Or.inl h
  | run_input_callbacks =>
    simp only [Exec.step] at h
    rcases (input_callbacks_frame s).2.2.2.2.2 with h1 | ⟨_, err, h1⟩
    · rw [h1] at h
      exact Or.inl h
    · rw [h1] at h
      exact Or.inl (fulfilled_of_reject _ _ _ h)
  | run_output_callbacks =>
    simp only [Exec.step] at h
    rcases (output_callbacks_frame s).2.2.2.2 with h1 | ⟨_, _, err, h1⟩
    · rw [h1] at h
      exact Or.inl h
    · rw [h1] at h
      exact Or.inl (fulfilled_of_reject _ _ _ h)
  | engine code m r =>
    have h0 := hev rfl
    simp only [ExecEvent.engine.injEq] at h0
    obtain ⟨hc, hm, hr⟩ := h0
    subst hc hm hr
    simp only [Exec.step, on_execute, if_true] at h
    exact fulfilled_of_resolve _ _ _ h

/-- When the callbacks of the input pipe have run, `end()` has been called on
`wrapped_input_stream`, unless the pipe was rejected. -/
theorem step_input_ended (s : Exec) (ev : ExecEvent)
    (h : s.input_pipe_promise ≠ .pending →
      (StreamId.wrapped_input_stream, Call.end_) ∈ s.calls ∨
        s.input_pipe.deferred.isRejected = true) :
    (s.step ev).input_pipe_promise ≠ .pending →
      (StreamId.wrapped_input_stream, Call.end_) ∈ (s.step ev).calls ∨
        (s.step ev).input_pipe.deferred.isRejected = true := by
  intro hq
  have keep : s.input_pipe_promise ≠ .pending →
      (StreamId.wrapped_input_stream, Call.end_) ∈ (s.step ev).calls ∨
        (s.step ev).input_pipe.deferred.isRejected = true := by
    intro hs
    rcases h hs with h1 | h1
    · exact Or.inl (step_calls s ev _ h1)
    · exact Or.inr ((step_pipes_rejected s ev).1 h1)
  cases ev with
  | input e => exact keep hq
  | output e => exact keep hq
  | run_input_callbacks =>
    by_cases hs : s.input_pipe_promise = .pending
    · cases hd : s.input_pipe.deferred with
      | pending =>
        have hsame : input_pipe_callbacks s = s := by
          simp [input_pipe_callbacks, hs, hd]
        simp only [Exec.step, hsame] at hq
        exact absurd hs hq
      | fulfilled u =>
        left
        simp [Exec.step, input_pipe_callbacks, hs, hd]
      | rejected err =>
        right
        simp only [Exec.step]
        rw [(input_callbacks_frame s).1, hd]
        rfl
    · exact keep hs
  | run_output_callbacks =>
    simp only [Exec.step] at hq
    rw [(output_callbacks_frame s).2.2.1] at hq
    exact keep hq
  | engine code message rest =>
    simp only [Exec.step] at hq
    rw [(on_execute_frame _ _ _ _).2.2.1] at hq
    exact keep hq

/-- The facts that hold throughout an execution in which the engine only
reports code 0 with one result. -/
theorem after_code_zero (evs : List ExecEvent) (message : String) (rest : List Value)
    (hev : ∀ ev ∈ evs, ev.isEngine = true → ev = .engine 0 message rest) :
    ((execute.after evs).deferred.isRejected = true →
        (execute.after evs).input_pipe.deferred.isRejected = true ∨
          (execute.after evs).output_pipe.deferred.isRejected = true) ∧
      (∀ v, (execute.after evs).deferred = .fulfilled v → v = .result 0 message :: rest) ∧
      ((execute.after evs).input_pipe_promise.isRejected = false ∧
        (execute.after evs).output_pipe_promise.isRejected = false) ∧
      ((execute.after evs).input_pipe_promise ≠ .pending →
        (StreamId.wrapped_input_stream, Call.end_) ∈ (execute.after evs).calls ∨
          (execute.after evs).input_pipe.deferred.isRejected = true) := by
  induction evs using List.reverseRecOn with
  | nil => simp [Exec.after, execute, Promise.isRejected]
  | append_singleton xs x ih =>
    obtain ⟨i1, i2, i3, i4⟩ := ih (fun ev h => hev ev (by simp [h]))
    have hx := hev x (by simp)
    have hs : execute.after (xs ++ [x]) = (execute.after xs).step x := by
      rw [exec_after_append]; rfl
    rw [hs]
    refine ⟨?_, ?_, step_when_promises _ x i3, step_input_ended _ x i4⟩
    · intro h
      rcases step_rejected_cause _ x message rest hx h with h1 | h1 | h1
      · rcases i1 h1 with h2 | h2
        · exact Or.inl ((step_pipes_rejected _ x).1 h2)
        · exact Or.inr ((step_pipes_rejected _ x).2 h2)
      · exact Or.inl ((step_pipes_rejected _ x).1 h1)
      · exact Or.inr ((step_pipes_rejected _ x).2 h1)
    · intro v h
      rcases step_fulfilled_cause _ x message rest hx v h with h1 | h1
      · exact i2 v h1
      · exact h1

theorem future_not_rejected (s : Exec) (h1 : s.deferred.isRejected = false)
    (h2 : s.input_pipe_promise.isRejected = false)
    (h3 : s.output_pipe_promise.isRejected = false) : s.future.isRejected = false := by
  unfold Exec.future
  split <;> simp_all [Promise.isRejected]

/-- C3: in every execution in which the on-execute callback reports code 0,
both pipes have completed normally (their deferreds are fulfilled) and `Q` has
run their callbacks, whatever the order of these events and whatever other
stream events occur, the promise `execute` returns is fulfilled with the
arguments of the on-execute callback, it is rejected at no moment of the run,
and `end()` has been called on `wrapped_input_stream`. -/
theorem execute_happy_path (trace : List ExecEvent) (message : String) (rest : List Value)
    (hcode : ∀ ev ∈ trace, ev.isEngine = true → ev = .engine 0 message rest)
    (hcalled : ExecEvent.engine 0 message rest ∈ trace)
    (hin : (execute.after trace).input_pipe.deferred = .fulfilled ())
    (hout : (execute.after trace).output_pipe.deferred = .fulfilled ())
    (hinq : (execute.after trace).input_pipe_promise ≠ .pending)
    (houtq : (execute.after trace).output_pipe_promise ≠ .pending) :
    (execute.after trace).future = .fulfilled (.result 0 message :: rest) ∧
      (∀ n, (execute.after (trace.take n)).future.isRejected = false) ∧
      (StreamId.wrapped_input_stream, Call.end_) ∈ (execute.after trace).calls := by
  obtain ⟨i1, i2, i3, i4⟩ := after_code_zero trace message rest hcode
  have hnot : ∀ n, (execute.after (trace.take n)).deferred.isRejected = false := by
    intro n
    obtain ⟨j1, _, _, _⟩ := after_code_zero (trace.take n) message rest
      (fun ev h => hcode ev (List.mem_of_mem_take h))
    cases hr : (execute.after (trace.take n)).deferred.isRejected with
    | false => rfl
    | true =>
      have hsplit : execute.after trace
          = (execute.after (trace.take n)).after (trace.drop n) := by
        rw [← exec_after_append, List.take_append_drop]
      rcases j1 hr with h | h
      · have h2 := (after_pipes_rejected _ (trace.drop n)).1 h
        rw [← hsplit, hin] at h2
        exact absurd h2 (by decide)
      · have h2 := (after_pipes_rejected _ (trace.drop n)).2 h
        rw [← hsplit, hout] at h2
        exact absurd h2 (by decide)
  have hsettled : (execute.after trace).deferred.settled = true := by
    obtain ⟨a, b, hab⟩ := List.append_of_mem hcalled
    rw [hab, exec_after_append, exec_after_cons]
    have h1 : ((execute.after a).step (.engine 0 message rest)).deferred.settled = true := by
      simp only [Exec.step, on_execute, if_true]
      exact settled_resolve _ _
    rw [exec_after_settled _ b h1]
    exact h1
  have hlast : (execute.after trace).deferred.isRejected = false := by
    have h := hnot trace.length
    rw [List.take_length] at h
    exact h
  have hd : (execute.after trace).deferred = .fulfilled (.result 0 message :: rest) := by
    cases hv : (execute.after trace).deferred with
    | pending => rw [hv] at hsettled; exact absurd hsettled (by decide)
    | fulfilled v => rw [i2 v hv]
    | rejected err => rw [hv] at hlast; simp [Promise.isRejected] at hlast
  have hi : ∃ u, (execute.after trace).input_pipe_promise = .fulfilled u := by
    cases hv : (execute.after trace).input_pipe_promise with
    | pending => exact absurd hv hinq
    | fulfilled u => exact ⟨u, rfl⟩
    | rejected err => have h := i3.1; rw [hv] at h; simp [Promise.isRejected] at h
  have ho : ∃ u, (execute.after trace).output_pipe_promise = .fulfilled u := by
    cases hv : (execute.after trace).output_pipe_promise with
    | pending => exact absurd hv houtq
    | fulfilled u => exact ⟨u, rfl⟩
    | rejected err => have h := i3.2; rw [hv] at h; simp [Promise.isRejected] at h
  obtain ⟨u1, hi⟩ := hi
  obtain ⟨u2, ho⟩ := ho
  refine ⟨by simp [Exec.future, hd, hi, ho], ?_, ?_⟩
  · intro n
    obtain ⟨_, _, j3, _⟩ := after_code_zero (trace.take n) message rest
      (fun ev h => hcode ev (List.mem_of_mem_take h))
    exact future_not_rejected _ (hnot n) j3.1 j3.2
  · rcases i4 hinq with h | h
    · exact h
    · rw [hin] at h
      exact absurd h (by decide)

/-- C3 at a concrete run: a chunk of input and a chunk of output are relayed,
the engine completes before the pipes do, and the source of each pipe closes
after its `end`. -/
theorem execute_happy_path_witness :
    (execute.after
        [.input ⟨.source, .data, .chunk [1], true, true, true⟩,
          .output ⟨.source, .data, .chunk [2], true, false, true⟩,
          .output ⟨.destination, .drain, .undefined, true, true, true⟩,
          .engine 0 "ok" [],
          .output ⟨.source, .end_, .undefined, true, true, true⟩,
          .input ⟨.source, .end_, .undefined, true, true, true⟩,
          .run_output_callbacks,
          .input ⟨.source, .close, .undefined, true, true, true⟩,
          .run_input_callbacks]).future
      = .fulfilled [.result 0 "ok"] :=
  (execute_happy_path
    [.input ⟨.source, .data, .chunk [1], true, true, true⟩,
      .output ⟨.source, .data, .chunk [2], true, false, true⟩,
      .output ⟨.destination, .drain, .undefined, true, true, true⟩,
      .engine 0 "ok" [],
      .output ⟨.source, .end_, .undefined, true, true, true⟩,
      .input ⟨.source, .end_, .undefined, true, true, true⟩,
      .run_output_callbacks,
      .input ⟨.source, .close, .undefined, true, true, true⟩,
      .run_input_callbacks]
    "ok" [] (by decide) (by decide) (by decide) (by decide) (by decide) (by decide)).1

/-! ## Theorems: external services -/

theorem inner_exhausted (text : ServiceText) (config : ServiceConfig) (service : Nat → Response)
    (retry : Nat) (h : retry ≥ config.retries) :
    (inner text config service retry).result
        = .error { message := text.too_many, raw_data := none } ∧
      (inner text config service retry).requests = [] ∧
      (inner text config service retry).delays = [] := by
  rw [inner]
  simp [h]

theorem inner_retry (text : ServiceText) (config : ServiceConfig) (service : Nat → Response)
    (retry : Nat) (err : ServiceError) (h : retry < config.retries)
    (hf : fire_then text service retry = .error err) :
    (inner text config service retry).result = (inner text config service (retry + 1)).result ∧
      (inner text config service retry).requests
        = retry :: (inner text config service (retry + 1)).requests ∧
      (inner text config service retry).delays
        = config.timeout * retry :: (inner text config service (retry + 1)).delays := by
  rw [inner]
  simp [Nat.not_le.mpr h, hf]

theorem inner_ok (text : ServiceText) (config : ServiceConfig) (service : Nat → Response)
    (retry : Nat) (data : JsonObject) (h : retry < config.retries)
    (hf : fire_then text service retry = .ok data) :
    (inner text config service retry).result = .ok data ∧
      (inner text config service retry).requests = [retry] ∧
      (inner text config service retry).delays = [] := by
  rw [inner]
  simp [Nat.not_le.mpr h, hf]

/-- When every attempt is rejected, by the request or by the `then`
callback, `inner(retry)` fires the requests `retry`, ..., `retries - 1`. -/
theorem inner_all_rejected (text : ServiceText) (config : ServiceConfig)
    (service : Nat → Response) (hf : ∀ k, ∃ err, fire_then text service k = .error err)
    (n retry : Nat) (hn : config.retries - retry = n) :
    (inner text config service retry).result
        = .error { message := text.too_many, raw_data := none } ∧
      (inner text config service retry).requests = List.range' retry n ∧
      (inner text config service retry).delays
        = (List.range' retry n).map (fun k => config.timeout * k) := by
  induction n generalizing retry with
  | zero =>
    have h := inner_exhausted text config service retry (by omega)
    simp [h.1, h.2.1, h.2.2]
  | succ m ih =>
    obtain ⟨err, herr⟩ := hf retry
    have h := inner_retry text config service retry err (by omega) herr
    have h2 := ih (retry + 1) (by omega)
    simp [h.1, h.2.1, h.2.2, h2.1, h2.2.1, h2.2.2, List.range'_succ]

theorem fire_then_failed (text : ServiceText) (service : Nat → Response) (k : Nat)
    (err : ServiceError) (h : service k = .failed err) : fire_then text service k = .error err := by
  simp [fire_then, h]

/-- C7: when every request ends in a transport failure, `blackboxValidateToken`
and `oAuthObtainToken` fire exactly `config.retries` requests (those of the
retry indices 0, 1, ...), fail with their `Too many failed ... requests`
error, and wait `config.timeout * 0`, `config.timeout * 1`, ... after the
failed attempts, in this order. -/
theorem retry_exhaustion (config : ServiceConfig) (service : Nat → Response)
    (hfail : ∀ k, ∃ err, service k = .failed err) :
    ((blackboxValidateToken config service).requests = List.range config.retries ∧
      (blackboxValidateToken config service).requests.length = config.retries ∧
      (blackboxValidateToken config service).result
        = .error { message := "Too many failed Blackbox requests", raw_data := none } ∧
      (blackboxValidateToken config service).delays
        = (List.range config.retries).map (fun k => config.timeout * k)) ∧
    ((oAuthObtainToken config service).requests = List.range config.retries ∧
      (oAuthObtainToken config service).requests.length = config.retries ∧
      (oAuthObtainToken config service).result
        = .error { message := "Too many failed OAuth requests", raw_data := none } ∧
      (oAuthObtainToken config service).delays
        = (List.range config.retries).map (fun k => config.timeout * k)) := by
  have key : ∀ text : ServiceText, ∀ k, ∃ err, fire_then text service k = .error err := by
    intro text k
    obtain ⟨err, h⟩ := hfail k
    exact ⟨err, fire_then_failed text service k err h⟩
  have hb := inner_all_rejected blackboxText config service (key _) config.retries 0 rfl
  have ho := inner_all_rejected oAuthText config service (key _) config.retries 0 rfl
  simp only [← List.range_eq_range'] at hb ho
  refine ⟨⟨hb.2.1, ?_, hb.1, hb.2.2⟩, ⟨ho.2.1, ?_, ho.1, ho.2.2⟩⟩
  · simp [blackboxValidateToken, hb.2.1]
  · simp [oAuthObtainToken, ho.2.1]

/-- C7 at a concrete run: three retries with a timeout of 100. -/
theorem retry_exhaustion_witness :
    (blackboxValidateToken ⟨"blackbox.example.net", 80, 100, true, 3⟩
        (fun _ => .failed ⟨"ETIMEDOUT", none⟩)).delays = [0, 100, 200] ∧
      (oAuthObtainToken ⟨"oauth.example.net", 80, 100, true, 3⟩
        (fun _ => .failed ⟨"ETIMEDOUT", none⟩)).requests.length = 3 :=
  ⟨(retry_exhaustion ⟨"blackbox.example.net", 80, 100, true, 3⟩
      (fun _ => .failed ⟨"ETIMEDOUT", none⟩) (fun _ => ⟨_, rfl⟩)).1.2.2.2.trans (by decide),
    (retry_exhaustion ⟨"oauth.example.net", 80, 100, true, 3⟩
      (fun _ => .failed ⟨"ETIMEDOUT", none⟩) (fun _ => ⟨_, rfl⟩)).2.2.1⟩

/-- A retrying call settles with a decoded response or with the
`Too many failed ... requests` error, never with another error. -/
theorem inner_result (text : ServiceText) (config : ServiceConfig) (service : Nat → Response)
    (n retry : Nat) (hn : config.retries - retry = n) :
    (∃ data, (inner text config service retry).result = .ok data) ∨
      (inner text config service retry).result
        = .error { message := text.too_many, raw_data := none } := by
  induction n generalizing retry with
  | zero => exact Or.inr (inner_exhausted text config service retry (by omega)).1
  | succ m ih =>
    cases hf : fire_then text service retry with
    | ok data => exact Or.inl ⟨data, (inner_ok text config service retry data (by omega) hf).1⟩
    | error err =>
      rw [(inner_retry text config service retry err (by omega) hf).1]
      exact ih (retry + 1) (by omega)

theorem inner_rejected_first (text : ServiceText) (config : ServiceConfig)
    (service : Nat → Response) (data : JsonObject) (reason : String)
    (hretries : 0 < config.retries) (h0 : service 0 = .json data)
    (hfield : data.lookup text.field = some reason) :
    (inner text config service 0).result = (inner text config service 1).result ∧
      (inner text config service 0).requests = 0 :: (inner text config service 1).requests ∧
      (inner text config service 0).delays
        = config.timeout * 0 :: (inner text config service 1).delays ∧
      (inner text config service 0).result
        ≠ .error { message := text.returned ++ reason, raw_data := some data } := by
  have hf : fire_then text service 0
      = .error { message := text.returned ++ reason, raw_data := some data } := by
    simp [fire_then, h0, on_response, hfield]
  have h := inner_retry text config service 0 _ hretries hf
  refine ⟨h.1, h.2.1, h.2.2, ?_⟩
  rcases inner_result text config service config.retries 0 rfl with ⟨d, hd⟩ | hd
  · rw [hd]; simp
  · rw [hd]; simp

/-- C6 as stated fails: with three retries and a service that answers every
request with the failure field, both callers fire three requests, not one, and
fail with the `Too many failed ... requests` error, not with the error made
from the response. -/
theorem rejection_is_retried_three_times :
    (blackboxValidateToken ⟨"blackbox.example.net", 80, 100, true, 3⟩
        (fun _ => .json [("exception", "expired_token")])).requests = [0, 1, 2] ∧
      (blackboxValidateToken ⟨"blackbox.example.net", 80, 100, true, 3⟩
        (fun _ => .json [("exception", "expired_token")])).result
        = .error { message := "Too many failed Blackbox requests", raw_data := none } ∧
      (oAuthObtainToken ⟨"oauth.example.net", 80, 100, true, 3⟩
        (fun _ => .json [("error", "invalid_grant")])).requests = [0, 1, 2] ∧
      (oAuthObtainToken ⟨"oauth.example.net", 80, 100, true, 3⟩
        (fun _ => .json [("error", "invalid_grant")])).result
        = .error { message := "Too many failed OAuth requests", raw_data := none } := by
  have hb := inner_all_rejected blackboxText ⟨"blackbox.example.net", 80, 100, true, 3⟩
    (fun _ => .json [("exception", "expired_token")]) (fun _ => ⟨_, rfl⟩) 3 0 rfl
  have ho := inner_all_rejected oAuthText ⟨"oauth.example.net", 80, 100, true, 3⟩
    (fun _ => .json [("error", "invalid_grant")]) (fun _ => ⟨_, rfl⟩) 3 0 rfl
  exact ⟨hb.2.1, hb.1, ho.2.1, ho.1⟩

/-- C6, amended: when the decoded response of attempt 0 contains the failure
field (`exception` for Blackbox, `error` for OAuth), the rejection made from
it is caught by the retry handler like a transport failure: the caller waits
`config.timeout * 0` and goes on with `inner(1)`; the call settles as
`inner(1)` does, its requests are request 0 followed by those of `inner(1)`,
and it never fails with the error made from the response. -/
theorem service_rejection_is_retried (config : ServiceConfig) (service : Nat → Response)
    (data : JsonObject) (reason : String) (hretries : 0 < config.retries)
    (h0 : service 0 = .json data) :
    (data.lookup "exception" = some reason →
      (blackboxValidateToken config service).result
        = (inner blackboxText config service 1).result ∧
      (blackboxValidateToken config service).requests
        = 0 :: (inner blackboxText config service 1).requests ∧
      (blackboxValidateToken config service).delays
        = config.timeout * 0 :: (inner blackboxText config service 1).delays ∧
      (blackboxValidateToken config service).result
        ≠ .error { message := "Blackbox returned an exception: " ++ reason,
                   raw_data := some data }) ∧
    (data.lookup "error" = some reason →
      (oAuthObtainToken config service).result
        = (inner oAuthText config service 1).result ∧
      (oAuthObtainToken config service).requests
        = 0 :: (inner oAuthText config service 1).requests ∧
      (oAuthObtainToken config service).delays
        = config.timeout * 0 :: (inner oAuthText config service 1).delays ∧
      (oAuthObtainToken config service).result
        ≠ .error { message := "OAuth returned an error: " ++ reason,
                   raw_data := some data }) :=
  ⟨fun h => inner_rejected_first blackboxText config service data reason hretries h0 h,
    fun h => inner_rejected_first oAuthText config service data reason hretries h0 h⟩

/-- C6 at a concrete run: the first response is rejected by the service, the
second is accepted, and the call succeeds after two requests. -/
theorem service_rejection_is_retried_witness :
    (blackboxValidateToken ⟨"blackbox.example.net", 80, 100, true, 3⟩
        (fun k => if k = 0 then .json [("exception", "busy"), ("error", "busy")]
          else .json [("login", "user")])).requests
      = 0 :: (inner blackboxText ⟨"blackbox.example.net", 80, 100, true, 3⟩
        (fun k => if k = 0 then .json [("exception", "busy"), ("error", "busy")]
          else .json [("login", "user")]) 1).requests ∧
    (oAuthObtainToken ⟨"blackbox.example.net", 80, 100, true, 3⟩
        (fun k => if k = 0 then .json [("exception", "busy"), ("error", "busy")]
          else .json [("login", "user")])).requests
      = 0 :: (inner oAuthText ⟨"blackbox.example.net", 80, 100, true, 3⟩
        (fun k => if k = 0 then .json [("exception", "busy"), ("error", "busy")]
          else .json [("login", "user")]) 1).requests :=
  ⟨((service_rejection_is_retried ⟨"blackbox.example.net", 80, 100, true, 3⟩
      (fun k => if k = 0 then .json [("exception", "busy"), ("error", "busy")]
        else .json [("login", "user")])
      [("exception", "busy"), ("error", "busy")] "busy" (by decide) rfl).1 (by decide)).2.1,
    ((service_rejection_is_retried ⟨"blackbox.example.net", 80, 100, true, 3⟩
      (fun k => if k = 0 then .json [("exception", "busy"), ("error", "busy")]
        else .json [("login", "user")])
      [("exception", "busy"), ("error", "busy")] "busy" (by decide) rfl).2 (by decide)).2.1⟩

/-! ## Theorems: the redirect URL -/

/-- C10 at a failing input: with host `oauth.example.net` and port 8080 the
URL built for `client_id` `abc` and state `{foo: 1}` has the four query
parameters, but no port: `url.format` is given `host`, so it does not look at
`port`. -/
theorem redirect_url_without_port :
    oAuthBuildUrlToRedirect ⟨"oauth.example.net", 8080, 100, true, 3⟩ "abc"
        (.object [("foo", .number false 1)])
      = "http://oauth.example.net/authorize?response_type=code&display=popup&client_id=abc&state=%7B%22foo%22%3A1%7D" := by
  decide

end YtDriver
